import Mathlib

/-!
Verification of the startup-research ingestion pipeline.

A shallow embedding of the repository's Python sources (`api.py`,
`parse_results_to_db.py`, `research_startups.py`) and proofs about the
record normalizer, the ingestion pipeline, the recovery JSON parsing, the
query layer and the statistics computation.

Python strings are modelled as `List Char`; decoded JSON values (Python
objects obtained from `json.loads`) as the inductive type `Json`; the
SQLite table as a list of rows carrying an insertion timestamp.  The
standard-library calls `json.dumps` / `json.loads` are modelled by an
executable printer (`dumpsV`, with the default `ensure_ascii` escaping)
and an executable recursive-descent reader (`loads`), and their
round-trip law is proved, since the repository's persistence of the
sequence-valued fields relies on it.
-/

namespace StartupResearch

/-- Python strings: sequences of unicode scalar values. -/
abbrev Str := List Char

/-- A decoded JSON value, i.e. the Python object `json.loads` returns:
`None`, `bool`, `int`, `str`, `list`, `dict` (a dict is kept as the ordered
association list the decoder built). -/
inductive Json where
  | null
  | bool (b : Bool)
  | num (n : Int)
  | str (s : Str)
  | arr (elems : List Json)
  | obj (fields : List (Str × Json))
deriving Repr

/-- Python truthiness of a decoded JSON value: `None`, `False`, `0`, `""`,
`[]` and `{}` are falsy, everything else truthy. -/
def truthy : Json → Bool
  | .null => false
  | .bool b => b
  | .num n => n != 0
  | .str s => !s.isEmpty
  | .arr es => !es.isEmpty
  | .obj fs => !fs.isEmpty

/-- `v is None` check (the `NOT NULL` column constraint rejects exactly
`None` bindings). -/
def Json.isNull : Json → Bool
  | .null => true
  | _ => false

/-- Equality of a decoded value with a string literal, as SQLite's `=`
compares a column value with a text constant (values of other storage
classes are never equal to a text value). -/
def Json.eqStr : Json → Str → Bool
  | .str s, t => s = t
  | _, _ => false

/-- Python `==` between a decoded value and an int (used by the
`founding_year` filter).  `True`/`False` compare equal to `1`/`0`. -/
def Json.eqInt : Json → Int → Bool
  | .num n, y => n = y
  | .bool b, y => (if b then (1 : Int) else 0) = y
  | _, _ => false

/-! ## `json.dumps` (default options: `ensure_ascii=True`,
separators `", "` and `": "`) -/

/-- Lower-case hex digit, as CPython's `json` encoder emits. -/
def hexDigit : Nat → Char
  | 0 => '0' | 1 => '1' | 2 => '2' | 3 => '3' | 4 => '4'
  | 5 => '5' | 6 => '6' | 7 => '7' | 8 => '8' | 9 => '9'
  | 10 => 'a' | 11 => 'b' | 12 => 'c' | 13 => 'd' | 14 => 'e'
  | _ => 'f'

/-- Four-digit hex rendering of a code unit, for `\uXXXX` escapes. -/
def hex4 (n : Nat) : Str :=
  [hexDigit (n / 4096 % 16), hexDigit (n / 256 % 16),
   hexDigit (n / 16 % 16), hexDigit (n % 16)]

/-- Decimal digit character. -/
def digitChar : Nat → Char
  | 0 => '0' | 1 => '1' | 2 => '2' | 3 => '3' | 4 => '4'
  | 5 => '5' | 6 => '6' | 7 => '7' | 8 => '8' | _ => '9'

/-- Decimal rendering worker: peel digits from the right, with enough
fuel to finish. -/
def natCharsAux : Nat → Nat → Str → Str
  | 0, _, acc => acc
  | fuel + 1, n, acc =>
    if n < 10 then digitChar n :: acc
    else natCharsAux fuel (n / 10) (digitChar (n % 10) :: acc)

/-- Decimal rendering of a natural number, most significant digit first. -/
def natChars (n : Nat) : Str := natCharsAux (n + 1) n []

/-- Python `repr` of an int, as the JSON encoder writes it. -/
def intChars (n : Int) : Str :=
  if n < 0 then '-' :: natChars n.natAbs else natChars n.natAbs

/-- The escaping `json.dumps` applies to one character of a string with
`ensure_ascii=True`: the two-character named escapes, `\u00XX` for other
control characters, plain ASCII unchanged, `\uXXXX` for other characters
of the basic plane and a surrogate pair for characters beyond it. -/
def encodeChar (c : Char) : Str :=
  if c = '"' then ['\\', '"']
  else if c = '\\' then ['\\', '\\']
  else if c = '\x08' then ['\\', 'b']
  else if c = '\x0c' then ['\\', 'f']
  else if c = '\n' then ['\\', 'n']
  else if c = '\r' then ['\\', 'r']
  else if c = '\t' then ['\\', 't']
  else if c.toNat < 0x20 ∨ (0x7e < c.toNat ∧ c.toNat < 0x10000) then
    '\\' :: 'u' :: hex4 c.toNat
  else if 0xffff < c.toNat then
    '\\' :: 'u' :: hex4 (0xd800 + (c.toNat - 0x10000) / 0x400) ++
      '\\' :: 'u' :: hex4 (0xdc00 + (c.toNat - 0x10000) % 0x400)
  else [c]

/-- JSON string literal for `s`: quote, escaped body, quote. -/
def encodeStr (s : Str) : Str :=
  '"' :: (s.map encodeChar).flatten ++ ['"']

mutual

/-- `json.dumps` of a decoded value with CPython's default separators. -/
def dumpsV : Json → Str
  | .null => "null".toList
  | .bool true => "true".toList
  | .bool false => "false".toList
  | .num n => intChars n
  | .str s => encodeStr s
  | .arr es => '[' :: dumpsElems es ++ [']']
  | .obj fs => '{' :: dumpsFields fs ++ ['}']

/-- Array elements joined by `", "`. -/
def dumpsElems : List Json → Str
  | [] => []
  | [e] => dumpsV e
  | e :: e' :: es => dumpsV e ++ ',' :: ' ' :: dumpsElems (e' :: es)

/-- Object members `"key": value` joined by `", "`. -/
def dumpsFields : List (Str × Json) → Str
  | [] => []
  | [(k, v)] => encodeStr k ++ ':' :: ' ' :: dumpsV v
  | (k, v) :: f' :: fs =>
      encodeStr k ++ ':' :: ' ' :: dumpsV v ++ ',' :: ' ' :: dumpsFields (f' :: fs)

end

/-! ## `json.loads` (strict mode), as a fuel-indexed recursive descent
reader over the remaining characters -/

/-- The whitespace `json.loads` skips between tokens. -/
def isWs (c : Char) : Bool :=
  c = ' ' || c = '\t' || c = '\n' || c = '\r'

/-- Skip inter-token whitespace. -/
def skipWs (s : Str) : Str := s.dropWhile isWs

/-- ASCII decimal digit test. -/
def isDig (c : Char) : Bool := 48 ≤ c.toNat && c.toNat ≤ 57

/-- Value of a hex digit (`json.loads` accepts both cases). -/
def hexVal (c : Char) : Option Nat :=
  if 48 ≤ c.toNat && c.toNat ≤ 57 then some (c.toNat - 48)
  else if 97 ≤ c.toNat && c.toNat ≤ 102 then some (c.toNat - 87)
  else if 65 ≤ c.toNat && c.toNat ≤ 70 then some (c.toNat - 55)
  else none

/-- Read exactly four hex digits. -/
def parseHex4 : Str → Option (Nat × Str)
  | a :: b :: c :: d :: rest => do
      let x ← hexVal a
      let y ← hexVal b
      let z ← hexVal c
      let w ← hexVal d
      pure (x * 4096 + y * 256 + z * 16 + w, rest)
  | _ => none

/-- A unicode scalar value from a code point, when it is one. -/
def mkChar (n : Nat) : Option Char :=
  if h : n.isValidChar then some (Char.ofNatAux n h) else none

/-- Read a run of decimal digits as a natural number. -/
def parseNat (s : Str) : Option (Nat × Str) :=
  let ds := s.takeWhile isDig
  if ds.isEmpty then none
  else some (ds.foldl (fun a c => a * 10 + (c.toNat - 48)) 0, s.dropWhile isDig)

/-- Combine a surrogate pair into one character; `recur` continues with
the rest of the string body. -/
def parseULow (recur : Str → Option (Str × Str)) (n m : Nat) (r4 : Str) :
    Option (Str × Str) :=
  if 0xdc00 ≤ m && m < 0xe000 then
    (mkChar (0x10000 + (n - 0xd800) * 0x400 + (m - 0xdc00))).bind fun ch =>
      (recur r4).map fun p => (ch :: p.1, p.2)
  else none

/-- After a high surrogate, require a `\u` low surrogate and combine. -/
def parseUPair (recur : Str → Option (Str × Str)) (n : Nat) :
    Str → Option (Str × Str)
  | '\\' :: 'u' :: r3 => (parseHex4 r3).bind fun q => parseULow recur n q.1 q.2
  | _ => none

/-- Decode the code unit of a `\uXXXX` escape: a high surrogate opens a
pair, anything else is a code point of its own. -/
def parseUVal (recur : Str → Option (Str × Str)) (n : Nat) (r2 : Str) :
    Option (Str × Str) :=
  if 0xd800 ≤ n && n < 0xdc00 then parseUPair recur n r2
  else
    (mkChar n).bind fun ch =>
      (recur r2).map fun p => (ch :: p.1, p.2)

/-- Decode one backslash escape. -/
def parseEsc (recur : Str → Option (Str × Str)) : Str → Option (Str × Str)
  | '"' :: r => (recur r).map fun p => ('"' :: p.1, p.2)
  | '\\' :: r => (recur r).map fun p => ('\\' :: p.1, p.2)
  | '/' :: r => (recur r).map fun p => ('/' :: p.1, p.2)
  | 'b' :: r => (recur r).map fun p => ('\x08' :: p.1, p.2)
  | 'f' :: r => (recur r).map fun p => ('\x0c' :: p.1, p.2)
  | 'n' :: r => (recur r).map fun p => ('\n' :: p.1, p.2)
  | 'r' :: r => (recur r).map fun p => ('\r' :: p.1, p.2)
  | 't' :: r => (recur r).map fun p => ('\t' :: p.1, p.2)
  | 'u' :: r => (parseHex4 r).bind fun p => parseUVal recur p.1 p.2
  | _ => none

/-- Handle one character of a string body: closing quote, escape,
rejected bare control character, or plain character. -/
def parseStrChar (recur : Str → Option (Str × Str)) (c : Char) (rest : Str) :
    Option (Str × Str) :=
  if c = '"' then some ([], rest)
  else if c = '\\' then parseEsc recur rest
  else if c.toNat < 0x20 then none
  else (recur rest).map fun p => (c :: p.1, p.2)

/-- Read the body of a string literal after the opening quote, decoding
escapes (surrogate pairs included) until the closing quote, one step of
fuel per character. -/
def parseStrBody : Nat → Str → Option (Str × Str)
  | 0, _ => none
  | _ + 1, [] => none
  | fuel + 1, c :: rest => parseStrChar (parseStrBody fuel) c rest

/-- Case split on the head of the remaining input, empty input failing. -/
def listCase {α : Type} (s : Str) (f : Char → Str → Option α) : Option α :=
  match s with
  | [] => none
  | c :: r => f c r

/-- The tail of the literal `null` after its `n`. -/
def parseNullTail : Str → Option (Json × Str)
  | 'u' :: 'l' :: 'l' :: r2 => some (.null, r2)
  | _ => none

/-- The tail of the literal `true` after its `t`. -/
def parseTrueTail : Str → Option (Json × Str)
  | 'r' :: 'u' :: 'e' :: r2 => some (.bool true, r2)
  | _ => none

/-- The tail of the literal `false` after its `f`. -/
def parseFalseTail : Str → Option (Json × Str)
  | 'a' :: 'l' :: 's' :: 'e' :: r2 => some (.bool false, r2)
  | _ => none

/-- Dispatch on the first significant character of a value; the three
function arguments continue into string bodies, array elements and
object members. -/
def parseValHead (pStr : Str → Option (Str × Str))
    (pElems : Str → Option (List Json × Str))
    (pFields : Str → Option (List (Str × Json) × Str))
    (c : Char) (r : Str) : Option (Json × Str) :=
  if c = 'n' then parseNullTail r
  else if c = 't' then parseTrueTail r
  else if c = 'f' then parseFalseTail r
  else if c = '"' then
    (pStr r).map fun p => (.str p.1, p.2)
  else if c = '[' then
    if (skipWs r).headD ' ' = ']' then some (.arr [], (skipWs r).tail)
    else (pElems (skipWs r)).map fun p => (.arr p.1, p.2)
  else if c = '{' then
    if (skipWs r).headD ' ' = '}' then some (.obj [], (skipWs r).tail)
    else (pFields (skipWs r)).map fun p => (.obj p.1, p.2)
  else if c = '-' then
    (parseNat r).map fun p => (.num (-(p.1 : Int)), p.2)
  else if isDig c then
    (parseNat (c :: r)).map fun p => (.num (p.1 : Int), p.2)
  else none

/-- After one array element: continue at a comma, finish at the
bracket. -/
def parseElemsSep (pElems : Str → Option (List Json × Str)) (v : Json) :
    Str → Option (List Json × Str)
  | ',' :: r2 => (pElems r2).map fun p => (v :: p.1, p.2)
  | ']' :: r2 => some ([v], r2)
  | _ => none

/-- After one object member: continue at a comma, finish at the
brace. -/
def parseFieldsSep (pFields : Str → Option (List (Str × Json) × Str))
    (k : Str) (v : Json) : Str → Option (List (Str × Json) × Str)
  | ',' :: r4 => (pFields r4).map fun p => ((k, v) :: p.1, p.2)
  | '}' :: r4 => some ([(k, v)], r4)
  | _ => none

/-- After a member key: require the colon, then the value. -/
def parseFieldsColon (pVal : Str → Option (Json × Str))
    (pFields : Str → Option (List (Str × Json) × Str)) (k : Str) :
    Str → Option (List (Str × Json) × Str)
  | ':' :: r2 =>
    (pVal r2).bind fun p => parseFieldsSep pFields k p.1 (skipWs p.2)
  | _ => none

mutual

/-- Read one JSON value, skipping leading whitespace. -/
def parseVal : Nat → Str → Option (Json × Str)
  | 0, _ => none
  | fuel + 1, input =>
    listCase (skipWs input)
      (parseValHead (parseStrBody fuel) (parseElems fuel) (parseFields fuel))

/-- Read the elements of a non-empty array up to and over the closing
bracket. -/
def parseElems : Nat → Str → Option (List Json × Str)
  | 0, _ => none
  | fuel + 1, input =>
    (parseVal fuel input).bind fun p =>
      parseElemsSep (parseElems fuel) p.1 (skipWs p.2)

/-- Read the members of a non-empty object up to and over the closing
brace. -/
def parseFields : Nat → Str → Option (List (Str × Json) × Str)
  | 0, _ => none
  | fuel + 1, input =>
    listCase (skipWs input) fun c r =>
      if c = '"' then
        (parseStrBody fuel r).bind fun p =>
          parseFieldsColon (parseVal fuel) (parseFields fuel) p.1 (skipWs p.2)
      else none

end

/-- `json.loads`: read one value and require only whitespace to remain,
else raise `JSONDecodeError` (modelled as `none`). -/
def loads (s : Str) : Option Json :=
  match parseVal (s.length + 1) s with
  | some (v, rest) => if (skipWs rest).isEmpty then some v else none
  | none => none

/-! ## Raw records and field resolution (`save_startup_to_db` in `api.py`
lines 92-170, textually identical in `parse_results_to_db.py` lines
44-123) -/

/-- A raw candidate record: the ordered association list a decoded JSON
object carries. -/
abbrev RawRec := List (Str × Json)

/-- Python dict lookup: the later of two bindings of the same key wins
(the decoder builds the dict left to right). -/
def dget (d : RawRec) (k : Str) : Option Json :=
  match d with
  | [] => none
  | (k', v) :: rest => match dget rest k with
    | some w => some w
    | none => if k' = k then some v else none

/-- Python `d.get(k, default)`: the stored value when the key is present
(even when that value is `None`), the default otherwise. -/
def getD (d : RawRec) (k : Str) (dflt : Json) : Json :=
  (dget d k).getD dflt

/-- Python `d.get(k)` — default `None`. -/
def getN (d : RawRec) (k : Str) : Json :=
  getD d k .null

/-- Python `a or b`: `a` when truthy, else `b`. -/
def pyOr (a b : Json) : Json :=
  if truthy a then a else b

/-- `company_name`: `d.get('Company Name') or d.get('company_name') or
d.get('name', '')`. -/
def resolve_company_name (d : RawRec) : Json :=
  pyOr (getN d "Company Name".toList)
    (pyOr (getN d "company_name".toList) (getD d "name".toList (.str [])))

/-- `website_url`: label / canonical / `website` alias, or-chain. -/
def resolve_website_url (d : RawRec) : Json :=
  pyOr (getN d "Website URL".toList)
    (pyOr (getN d "website_url".toList) (getD d "website".toList (.str [])))

/-- `founding_year`: label / canonical / `founded` alias, or-chain with
default `None`. -/
def resolve_founding_year (d : RawRec) : Json :=
  pyOr (getN d "Founding Year".toList)
    (pyOr (getN d "founding_year".toList) (getD d "founded".toList .null))

/-- `founders`: `d.get('Founders', d.get('founders', []))` — key-presence
lookup, no or-chain, no short alias. -/
def resolve_founders (d : RawRec) : Json :=
  getD d "Founders".toList (getD d "founders".toList (.arr []))

/-- `business_model`: label / canonical, or-chain (no short alias). -/
def resolve_business_model (d : RawRec) : Json :=
  pyOr (getN d "Business Model".toList) (getD d "business_model".toList (.str []))

/-- `industry_sector`: label / canonical / `industry` alias, or-chain. -/
def resolve_industry_sector (d : RawRec) : Json :=
  pyOr (getN d "Industry Sector".toList)
    (pyOr (getN d "industry_sector".toList) (getD d "industry".toList (.str [])))

/-- `funding_rounds`: key-presence lookup like `founders`. -/
def resolve_funding_rounds (d : RawRec) : Json :=
  getD d "Funding Rounds".toList (getD d "funding_rounds".toList (.arr []))

/-- `total_capital_raised`: label / canonical / `total_funding` alias. -/
def resolve_total_capital_raised (d : RawRec) : Json :=
  pyOr (getN d "Total Capital Raised to Date".toList)
    (pyOr (getN d "total_capital_raised".toList)
      (getD d "total_funding".toList (.str [])))

/-- `current_revenue_estimates`: label / canonical / `revenue` alias. -/
def resolve_current_revenue_estimates (d : RawRec) : Json :=
  pyOr (getN d "Current Revenue Estimates".toList)
    (pyOr (getN d "current_revenue_estimates".toList)
      (getD d "revenue".toList (.str [])))

/-- `employee_count`: label / canonical / `employees` alias, default
`None`. -/
def resolve_employee_count (d : RawRec) : Json :=
  pyOr (getN d "Employee Count".toList)
    (pyOr (getN d "employee_count".toList) (getD d "employees".toList .null))

/-- `customer_user_base_size`: label / canonical / `users` alias. -/
def resolve_customer_user_base_size (d : RawRec) : Json :=
  pyOr (getN d "Customer/User Base Size".toList)
    (pyOr (getN d "customer_user_base_size".toList) (getD d "users".toList (.str [])))

/-- `key_partnerships`: key-presence lookup like `founders`. -/
def resolve_key_partnerships (d : RawRec) : Json :=
  getD d "Key Partnerships".toList (getD d "key_partnerships".toList (.arr []))

/-- `major_competitors`: key-presence lookup like `founders`. -/
def resolve_major_competitors (d : RawRec) : Json :=
  getD d "Major Competitors".toList (getD d "major_competitors".toList (.arr []))

/-- `recent_news_developments`: label / canonical / `recent_news` alias. -/
def resolve_recent_news_developments (d : RawRec) : Json :=
  pyOr (getN d "Recent News or Developments".toList)
    (pyOr (getN d "recent_news_developments".toList)
      (getD d "recent_news".toList (.str [])))

/-! ## The `startups` table -/

/-- One row of the `startups` table.  The four sequence-valued columns
hold the text `json.dumps` produced; the other data columns hold the
bound Python value (SQLite is dynamically typed and the paths below bind
decoded JSON values directly).  `created_at` is the insert-time
timestamp `DEFAULT CURRENT_TIMESTAMP`. -/
structure Row where
  company_name : Json
  website_url : Json
  founding_year : Json
  founders : Str
  business_model : Json
  industry_sector : Json
  funding_rounds : Str
  total_capital_raised : Json
  current_revenue_estimates : Json
  employee_count : Json
  customer_user_base_size : Json
  key_partnerships : Str
  major_competitors : Str
  recent_news_developments : Json
  created_at : Nat
deriving Repr

/-- The database: rows in insertion order and a monotone clock supplying
`created_at` stamps. -/
structure DB where
  rows : List Row
  clock : Nat
deriving Repr

/-- The freshly created store. -/
def emptyDB : DB := ⟨[], 0⟩

/-- `save_startup_to_db(startup_data)` of `api.py` (and, same text, of
`parse_results_to_db.py`): resolve every field, serialize the sequence
fields with `json.dumps` and insert one row in its own transaction.  The
`company_name` column is `NOT NULL`, so binding `None` there makes the
insert fail, roll back and return `False`; any other resolved values are
accepted. -/
def save_startup_to_db (d : RawRec) (db : DB) : DB × Bool :=
  let cn := resolve_company_name d
  if cn.isNull then (db, false)
  else
    ({ rows := db.rows ++ [{
         company_name := cn
         website_url := resolve_website_url d
         founding_year := resolve_founding_year d
         founders := dumpsV (resolve_founders d)
         business_model := resolve_business_model d
         industry_sector := resolve_industry_sector d
         funding_rounds := dumpsV (resolve_funding_rounds d)
         total_capital_raised := resolve_total_capital_raised d
         current_revenue_estimates := resolve_current_revenue_estimates d
         employee_count := resolve_employee_count d
         customer_user_base_size := resolve_customer_user_base_size d
         key_partnerships := dumpsV (resolve_key_partnerships d)
         major_competitors := dumpsV (resolve_major_competitors d)
         recent_news_developments := resolve_recent_news_developments d
         created_at := db.clock }],
       clock := db.clock + 1 }, true)

/-! ## Read-back (`get_all_startups_from_db`, `api.py` lines 207-254) -/

/-- The dictionary `get_all_startups_from_db` builds per row: the four
sequence columns decoded with `json.loads(text) if text else []`, the
other columns verbatim. -/
structure Rec where
  company_name : Json
  website_url : Json
  founding_year : Json
  founders : Json
  business_model : Json
  industry_sector : Json
  funding_rounds : Json
  total_capital_raised : Json
  current_revenue_estimates : Json
  employee_count : Json
  customer_user_base_size : Json
  key_partnerships : Json
  major_competitors : Json
  recent_news_developments : Json
  created_at : Nat
deriving Repr

/-- `json.loads(text) if text else []` on one sequence column; decoding
failure raises (propagated as `none`). -/
def decodeSeq (t : Str) : Option Json :=
  if t.isEmpty then some (.arr []) else loads t

/-- Building the read-back dictionary for one row; a decode failure
raises out of the row loop. -/
def readRow (r : Row) : Option Rec := do
  let f ← decodeSeq r.founders
  let fr ← decodeSeq r.funding_rounds
  let kp ← decodeSeq r.key_partnerships
  let mc ← decodeSeq r.major_competitors
  pure {
    company_name := r.company_name
    website_url := r.website_url
    founding_year := r.founding_year
    founders := f
    business_model := r.business_model
    industry_sector := r.industry_sector
    funding_rounds := fr
    total_capital_raised := r.total_capital_raised
    current_revenue_estimates := r.current_revenue_estimates
    employee_count := r.employee_count
    customer_user_base_size := r.customer_user_base_size
    key_partnerships := kp
    major_competitors := mc
    recent_news_developments := r.recent_news_developments
    created_at := r.created_at }

/-- Insert into a list sorted by `created_at` descending. -/
def insertDesc (r : Row) : List Row → List Row
  | [] => [r]
  | x :: xs =>
    if x.created_at ≤ r.created_at then r :: x :: xs else x :: insertDesc r xs

/-- `ORDER BY created_at DESC`. -/
def sortDesc (rows : List Row) : List Row :=
  rows.foldr insertDesc []

/-- `get_all_startups_from_db()`: select every row newest first and build
the dictionaries; any exception (a sequence column that fails to decode)
makes the function return `[]`. -/
def get_all_startups_from_db (db : DB) : List Rec :=
  match (sortDesc db.rows).mapM readRow with
  | some l => l
  | none => []

/-! ## The `/startups` endpoint (`get_startups`, `api.py` lines 393-419) -/

/-- ASCII `str.lower`. -/
def pyLower (s : Str) : Str :=
  s.map fun c => if 'A' ≤ c && c ≤ 'Z' then Char.ofNat (c.toNat + 32) else c

/-- Python `haystack.find(needle) != -1`: substring containment. -/
def strContains (hay needle : Str) : Bool :=
  (List.range (hay.length + 1)).any fun i => needle.isPrefixOf (hay.drop i)

/-- `s.get('industry_sector', '').lower().find(industry.lower()) != -1`
for one record: calling `.lower()` on a non-string value raises
`AttributeError` (modelled as `none`). -/
def industryTest (ind : Str) (s : Rec) : Option Bool :=
  match s.industry_sector with
  | .str t => some (strContains (pyLower t) (pyLower ind))
  | _ => none

/-- Evaluate the industry list comprehension: the test runs on every
record, so one non-string `industry_sector` raises for the whole list. -/
def industryFilter (ind : Str) : List Rec → Option (List Rec)
  | [] => some []
  | s :: rest => do
    let keep ← industryTest ind s
    let tail ← industryFilter ind rest
    pure (if keep then s :: tail else tail)

/-- Python `l[:k]` (a negative bound counts from the end). -/
def pySliceTo (l : List Rec) (k : Int) : List Rec :=
  if 0 ≤ k then l.take k.toNat
  else l.take ((l.length : Int) + k).toNat

/-- `GET /startups`: read all records, apply the industry filter when the
`industry` parameter is truthy, the founding-year filter when the
`founding_year` parameter is truthy, then `startups[:limit]`.  An
exception inside becomes an HTTP 500 (`Except.error 500`). -/
def get_startups (db : DB) (limit : Int) (industry : Option Str)
    (founding_year : Option Int) : Except Nat (List Rec) := do
  let startups := get_all_startups_from_db db
  let startups ←
    match industry with
    | some ind =>
      if ind.isEmpty then pure startups
      else
        match industryFilter ind startups with
        | some l => pure l
        | none => throw 500
    | none => pure startups
  let startups :=
    match founding_year with
    | some y =>
      if y = 0 then startups
      else startups.filter fun s => s.founding_year.eqInt y
    | none => startups
  pure (pySliceTo startups limit)

/-! ## Statistics (`get_database_stats`, `api.py` lines 256-294) -/

/-- The `SELECT DISTINCT` of SQLite: values in scan order with later
duplicates dropped.  Distinctness compares whole stored values; here the
filtered column values are compared via their printed form, which is
injective on the values at hand. -/
def distinctVals (l : List Json) : List Json :=
  (l.foldl (fun acc v =>
      if acc.any (fun w => dumpsV w = dumpsV v) then acc else acc ++ [v]) [])

/-- Numeric reading SQLite's `AVG` applies to a stored value: integers
count as themselves, booleans were stored as `0`/`1`, anything
non-numeric contributes `0`. -/
def numVal : Json → Int
  | .num n => n
  | .bool b => if b then 1 else 0
  | _ => 0

/-- The result record of `get_database_stats`. -/
structure Stats where
  total_startups : Nat
  industries : List Json
  avg_founding_year : Option ℚ
  total_funding_disclosed : Nat
deriving Repr

/-- The `WHERE` clause of the disclosed-funding count:
`total_capital_raised IS NOT NULL AND != "" AND != "Not disclosed"`. -/
def disclosedTest (v : Json) : Bool :=
  !v.isNull && !(v.eqStr []) && !(v.eqStr "Not disclosed".toList)

/-- `get_database_stats()`: row count, distinct non-null non-empty
industries, `AVG(founding_year)` over non-null values (`NULL` on an
empty selection), and the disclosed-funding count. -/
def get_database_stats (db : DB) : Stats :=
  let years := (db.rows.map (·.founding_year)).filter fun v => !v.isNull
  { total_startups := db.rows.length
    industries := distinctVals
      ((db.rows.map (·.industry_sector)).filter fun v =>
        !v.isNull && !(v.eqStr []))
    avg_founding_year :=
      if years.isEmpty then none
      else some (((years.map numVal).sum : ℚ) / (years.length : ℚ))
    total_funding_disclosed :=
      db.rows.countP fun r => disclosedTest r.total_capital_raised }

/-! ## File parsing (`parse_result_file`, `api.py` lines 172-205; the
same strict-then-recover logic appears in `parse_results_to_db.py` and
`research_startups.py`) -/

/-- The whitespace `str.strip()` removes (ASCII portion). -/
def isPyWs (c : Char) : Bool :=
  c = ' ' || c = '\t' || c = '\n' || c = '\r' || c = '\x0b' || c = '\x0c'

/-- Python `str.strip()`. -/
def pyStrip (s : Str) : Str :=
  ((s.dropWhile isPyWs).reverse.dropWhile isPyWs).reverse

/-- Python `content.find(ch)`: index of first occurrence, if any. -/
def pyFind (s : Str) (ch : Char) : Option Nat :=
  s.findIdx? (· = ch)

/-- Python `content.rfind(ch)`: index of last occurrence, if any. -/
def pyRfind (s : Str) (ch : Char) : Option Nat :=
  (s.reverse.findIdx? (· = ch)).map fun i => s.length - 1 - i

/-- Shape handling: a list yields its elements, a dict yields one
candidate, any other value yields nothing. -/
def shapeCandidates : Json → List Json
  | .arr es => es
  | .obj fs => [.obj fs]
  | _ => []

/-- The recovery step: locate the first `[` and the last `]` and
re-parse that substring (requiring the `]` to come after the `[`). -/
def recoverSpan (c : Str) : Option Json :=
  (pyFind c '[').elim none fun s =>
    (pyRfind c ']').elim none fun e =>
      if s < e then loads ((c.drop s).take (e + 1 - s)) else none

/-- The strict-then-recover decoding shared by every file reader of the
repository: strip the text, try a strict parse and on failure fall back
to the bracket-span recovery. -/
def recoveredData (content : Str) : Option Json :=
  let c := pyStrip content
  if c.isEmpty then none
  else (loads c).elim (recoverSpan c) some

/-- `parse_result_file`: decode the file text and hand out the candidate
records; a file whose recovery fails yields zero candidates without
aborting the run. -/
def parse_result_file (content : Str) : List Json :=
  (recoveredData content).elim [] shapeCandidates

/-! ## Batch saving -/

/-- The per-candidate loop shared by `save_from_file` (`api.py` lines
345-351 and 374-380) and `save_startups_to_db`
(`parse_results_to_db.py` lines 188-201): skip non-dict candidates,
re-resolve the company name over the three aliases, skip when it is
falsy, otherwise insert and count the successful saves. -/
def saveLoop : DB → List Json → DB × Nat
  | db, [] => (db, 0)
  | db, s :: rest =>
    match s with
    | .obj d =>
      if truthy (resolve_company_name d) then
        let r := save_startup_to_db d db
        let t := saveLoop r.1 rest
        (t.1, (if r.2 then 1 else 0) + t.2)
      else saveLoop db rest
    | _ => saveLoop db rest

/-- `save_startups_to_db(startups_list)` of `parse_results_to_db.py`:
an empty list saves nothing, otherwise the candidate loop runs (the
schema-creation call it makes first is idempotent and changes no row). -/
def save_startups_to_db (db : DB) (startups : List Json) : DB × Nat :=
  match startups with
  | [] => (db, 0)
  | _ => saveLoop db startups

/-! ## The `/save-from-file` endpoint (`save_from_file`, `api.py` lines
317-391) -/

/-- The working directory: file names with their text contents. -/
abbrev FS := List (Str × Str)

/-- `os.path.exists(filename)`. -/
def fsExists (fs : FS) (name : Str) : Bool :=
  fs.any fun f => f.1 = name

/-- Reading a file's text (callers check existence first). -/
def readFile (fs : FS) (name : Str) : Str :=
  match fs.find? (fun f => f.1 = name) with
  | some f => f.2
  | none => []

/-- Glob pattern `research_results.json` (no wildcard: exact name). -/
def matchesPrimary (name : Str) : Bool :=
  name = "research_results.json".toList

/-- A name matches `pre*suf` iff it carries `pre` as prefix and `suf` as
suffix with no overlap (`*` may match the empty string). -/
def matchesStar (pre suf name : Str) : Bool :=
  pre.isPrefixOf name && suf.isSuffixOf name &&
    pre.length + suf.length ≤ name.length

/-- Glob pattern `research_results_backup_*.json`. -/
def matchesBackup (name : Str) : Bool :=
  matchesStar "research_results_backup_".toList ".json".toList name

/-- Glob pattern `batch_results_*.json`. -/
def matchesBatch (name : Str) : Bool :=
  matchesStar "batch_results_".toList ".json".toList name

/-- The union of the three fixed patterns, accumulated pattern by
pattern as the `glob.glob` loop does. -/
def globFiles (fs : FS) : List Str :=
  let names := fs.map (·.1)
  names.filter matchesPrimary ++ names.filter matchesBackup ++
    names.filter matchesBatch

/-- The HTTP responses `save_from_file` can produce. -/
inductive ApiResponse where
  | single (found : Nat) (saved : Nat)
  | multi (filesProcessed : Nat) (totalSaved : Nat) (perFile : List (Str × Nat))
  | err (code : Nat)
deriving Repr

/-- The single-file tail of `save_from_file`: parse the named file, turn
an empty candidate list into an HTTP 400, otherwise run the candidate
loop and report `startups_found` and `startups_saved`. -/
def processSingle (fs : FS) (db : DB) (filename : Str) : ApiResponse × DB :=
  let startups := parse_result_file (readFile fs filename)
  if startups.isEmpty then (.err 400, db)
  else
    let r := saveLoop db startups
    (.single startups.length r.2, r.1)

/-- `POST /save-from-file`: when the named file exists it is parsed as a
single source; otherwise the literal argument `all` expands the fixed
patterns (an empty union is an HTTP 404 `No result files found`) and
every matched file is processed with a per-file breakdown; any other
missing name is an HTTP 404. -/
def save_from_file (fs : FS) (db : DB) (filename : Str) : ApiResponse × DB :=
  if fsExists fs filename then processSingle fs db filename
  else if filename = "all".toList then
    let files := globFiles fs
    if files.isEmpty then (.err 404, db)
    else
      let r := files.foldl
        (fun (acc : DB × Nat × List (Str × Nat)) f =>
          let startups := parse_result_file (readFile fs f)
          let s := saveLoop acc.1 startups
          (s.1, acc.2.1 + s.2, acc.2.2 ++ [(f, s.2)]))
        (db, 0, [])
      (.multi files.length r.2.1 r.2.2, r.1)
  else (.err 404, db)

/-! ## `research_startups.py` (lines 74-214): the label-only saver and
its file entry point -/

namespace RS

/-- `save_startup_to_db` of `research_startups.py`: every field is read
from the human-readable label key only, with no canonical or short
alias.  As before a `None` company name violates `NOT NULL` and the
insert rolls back. -/
def save_startup_to_db (d : RawRec) (db : DB) : DB :=
  let cn := getD d "Company Name".toList (.str [])
  if cn.isNull then db
  else
    { rows := db.rows ++ [{
        company_name := cn
        website_url := getD d "Website URL".toList (.str [])
        founding_year := getD d "Founding Year".toList .null
        founders := dumpsV (getD d "Founders".toList (.arr []))
        business_model := getD d "Business Model".toList (.str [])
        industry_sector := getD d "Industry Sector".toList (.str [])
        funding_rounds := dumpsV (getD d "Funding Rounds".toList (.arr []))
        total_capital_raised :=
          getD d "Total Capital Raised to Date".toList (.str [])
        current_revenue_estimates :=
          getD d "Current Revenue Estimates".toList (.str [])
        employee_count := getD d "Employee Count".toList .null
        customer_user_base_size :=
          getD d "Customer/User Base Size".toList (.str [])
        key_partnerships := dumpsV (getD d "Key Partnerships".toList (.arr []))
        major_competitors := dumpsV (getD d "Major Competitors".toList (.arr []))
        recent_news_developments :=
          getD d "Recent News or Developments".toList (.str [])
        created_at := db.clock }],
      clock := db.clock + 1 }

/-- `save_all_startups_to_db`: save every dict of the list. -/
def save_all_startups_to_db (db : DB) (startups : List Json) : DB :=
  startups.foldl
    (fun acc s =>
      match s with
      | .obj d => save_startup_to_db d acc
      | _ => acc)
    db

/-- The validity gate of `parse_and_save_result_file`:
`'Company Name' in item or 'company_name' in item` (key presence under
either of those two names, regardless of the stored value). -/
def hasCompanyKey (d : RawRec) : Bool :=
  (dget d "Company Name".toList).isSome ||
    (dget d "company_name".toList).isSome

/-- `parse_and_save_result_file`: decode the file (same strict/recovery
logic), keep the dict items passing the validity gate, save them all and
report whether anything was saved. -/
def parse_and_save_result_file (content : Str) (db : DB) : DB × Bool :=
  match recoveredData content with
  | none => (db, false)
  | some (.arr items) =>
    let valid := items.filter fun it =>
      match it with
      | .obj d => hasCompanyKey d
      | _ => false
    if valid.isEmpty then (db, false)
    else (save_all_startups_to_db db valid, true)
  | some (.obj d) =>
    if hasCompanyKey d then (save_all_startups_to_db db [.obj d], true)
    else (db, false)
  | some _ => (db, false)

end RS

/-! ## Auxiliary definitions used by the theorems below -/

/-- A suffix that no digit run can leak into. -/
def noDigitStart : Str → Bool
  | [] => true
  | c :: _ => !isDig c

/-- The rows of a store every program path can produce: stamps below the
clock and sequence columns that decode. -/
def DBWF (db : DB) : Prop :=
  ∀ r ∈ db.rows, r.created_at < db.clock ∧ (readRow r).isSome = true

/-- The gate every batch saver applies to a candidate: a dict whose
company name resolves truthy over the three aliases. -/
def candidateAccepted : Json → Bool
  | .obj d => truthy (resolve_company_name d)
  | _ => false

/-- The first truthy value of an ordered candidate list, else the final
fallback expression. -/
def firstTruthy : List Json → Json → Json
  | [], dflt => dflt
  | v :: vs, dflt => if truthy v then v else firstTruthy vs dflt

/-- Presence-ordered lookup: the first PRESENT key wins, whatever its
value, else the default. -/
def keyPresence (d : RawRec) : List Str → Json → Json
  | [], dflt => dflt
  | k :: ks, dflt =>
    match dget d k with
    | some v => v
    | none => keyPresence d ks dflt
/-- The record filter of the spec sentence: `industry_sector`
case-insensitively contains the given industry substring (a non-string
or absent sector matches nothing). -/
def specIndustryMatch (ind : Str) (s : Rec) : Bool :=
  match s.industry_sector with
  | .str t => strContains (pyLower t) (pyLower ind)
  | _ => false

/-! ## Round trip of `json.dumps` / `json.loads`

The persistence of the sequence-valued fields stores `dumpsV` text and
decodes it with `loads`; the claims about read-back rely on
`loads (dumpsV v) = some v`, proved here. -/

/-- Characters are determined by their code points. -/
theorem char_eq_of_toNat {a b : Char} (h : a.toNat = b.toNat) : a = b :=
  Char.eq_of_val_eq (UInt32.ext h)

/-- A character's code point is a valid code point. -/
theorem toNat_isValidChar (c : Char) : c.toNat.isValidChar :=
  c.valid

/-- Reading back the code point of a constructed character. -/
theorem toNat_ofNatAux (n : Nat) (h : n.isValidChar) :
    (Char.ofNatAux n h).toNat = n := by
  simp only [Char.ofNatAux, Char.toNat]
  rfl

/-- `mkChar` undoes `toNat`. -/
theorem mkChar_toNat (c : Char) : mkChar c.toNat = some c := by
  have hv : c.toNat.isValidChar := toNat_isValidChar c
  have h2 : Char.ofNatAux c.toNat hv = c := by
    have h3 := Char.ofNat_toNat c
    unfold Char.ofNat at h3
    rwa [dif_pos hv] at h3
  simp [mkChar, hv, h2]

/-- Hex digit characters decode to their value. -/
theorem hexVal_hexDigit (n : Nat) (h : n < 16) : hexVal (hexDigit n) = some n := by
  interval_cases n <;> decide

/-- `parseHex4` undoes `hex4` on code units. -/
theorem parseHex4_hex4 (n : Nat) (h : n < 65536) (r : Str) :
    parseHex4 (hex4 n ++ r) = some (n, r) := by
  have h3 : n / 4096 % 16 < 16 := Nat.mod_lt _ (by omega)
  have h2 : n / 256 % 16 < 16 := Nat.mod_lt _ (by omega)
  have h1 : n / 16 % 16 < 16 := Nat.mod_lt _ (by omega)
  have h0 : n % 16 < 16 := Nat.mod_lt _ (by omega)
  simp only [hex4, List.cons_append, List.nil_append, parseHex4,
    hexVal_hexDigit _ h3, hexVal_hexDigit _ h2, hexVal_hexDigit _ h1,
    hexVal_hexDigit _ h0, Option.bind_eq_bind, Option.some_bind]
  refine congrArg some (Prod.ext ?_ rfl)
  show n / 4096 % 16 * 4096 + n / 256 % 16 * 256 + n / 16 % 16 * 16 + n % 16 = n
  omega

/-- Decimal digit characters are digits. -/
theorem isDig_digitChar (n : Nat) (h : n < 10) : isDig (digitChar n) = true := by
  interval_cases n <;> decide

/-- The code point of a decimal digit character. -/
theorem digitChar_toNat (n : Nat) (h : n < 10) : (digitChar n).toNat = 48 + n := by
  interval_cases n <;> decide

/-- The accumulator rides along unchanged at the tail of the output. -/
theorem natCharsAux_append (fuel : Nat) : ∀ n acc, n < fuel →
    natCharsAux fuel n acc = natCharsAux fuel n [] ++ acc := by
  induction fuel with
  | zero => omega
  | succ g ih =>
    intro n acc h
    by_cases h10 : n < 10
    · simp [natCharsAux, h10]
    · have hlt : n / 10 < g := by
        have := Nat.div_lt_self (show 0 < n by omega) (show 1 < 10 by omega)
        omega
      simp only [natCharsAux, if_neg h10]
      rw [ih (n / 10) (digitChar (n % 10) :: acc) hlt,
        ih (n / 10) [digitChar (n % 10)] hlt, List.append_assoc,
        List.singleton_append]

/-- Any sufficient amount of fuel renders the same digits. -/
theorem natCharsAux_fuel (fuel : Nat) : ∀ fuel' n acc, n < fuel → n < fuel' →
    natCharsAux fuel n acc = natCharsAux fuel' n acc := by
  induction fuel with
  | zero => omega
  | succ g ih =>
    intro fuel' n acc h h'
    obtain ⟨g', rfl⟩ : ∃ g', fuel' = g' + 1 := ⟨fuel' - 1, by omega⟩
    by_cases h10 : n < 10
    · simp [natCharsAux, h10]
    · have hlt : n / 10 < n := Nat.div_lt_self (by omega) (by omega)
      simp only [natCharsAux, if_neg h10]
      exact ih g' (n / 10) _ (by omega) (by omega)

/-- One-digit rendering. -/
theorem natChars_lt10 (n : Nat) (h : n < 10) : natChars n = [digitChar n] := by
  simp [natChars, natCharsAux, h]

/-- The recursive shape of the rendering for numbers of several
digits. -/
theorem natChars_ge10 (n : Nat) (h : ¬ n < 10) :
    natChars n = natChars (n / 10) ++ [digitChar (n % 10)] := by
  have hlt : n / 10 < n := Nat.div_lt_self (by omega) (by omega)
  rw [natChars, natChars]
  show natCharsAux (n + 1) n [] = _
  rw [show natCharsAux (n + 1) n [] =
      natCharsAux n (n / 10) [digitChar (n % 10)] by
    simp [natCharsAux, h]]
  rw [natCharsAux_append n (n / 10) _ (by omega),
    natCharsAux_fuel n (n / 10 + 1) (n / 10) [] (by omega) (by omega)]

/-- Every character `natChars` emits is a digit. -/
theorem natChars_digits (n : Nat) : ∀ c ∈ natChars n, isDig c = true := by
  induction n using Nat.strong_induction_on with
  | _ n ih =>
    intro c hc
    by_cases h : n < 10
    · rw [natChars_lt10 n h] at hc
      simp at hc
      subst hc
      exact isDig_digitChar n h
    · rw [natChars_ge10 n h] at hc
      simp at hc
      rcases hc with hc | hc
      · exact ih (n / 10) (Nat.div_lt_self (by omega) (by omega)) c hc
      · subst hc
        exact isDig_digitChar _ (Nat.mod_lt _ (by omega))

/-- `natChars` is never empty. -/
theorem natChars_ne_nil (n : Nat) : natChars n ≠ [] := by
  by_cases h : n < 10
  · rw [natChars_lt10 n h]
    simp
  · rw [natChars_ge10 n h]
    simp

/-- Folding the digits of `natChars n` recovers `n`. -/
theorem foldl_natChars (n : Nat) :
    (natChars n).foldl (fun a c => a * 10 + (c.toNat - 48)) 0 = n := by
  induction n using Nat.strong_induction_on with
  | _ n ih =>
    by_cases h : n < 10
    · rw [natChars_lt10 n h]
      simp [List.foldl, digitChar_toNat n h]
    · rw [natChars_ge10 n h]
      simp only [List.foldl_append, List.foldl,
        ih (n / 10) (Nat.div_lt_self (by omega) (by omega)),
        digitChar_toNat (n % 10) (Nat.mod_lt _ (by omega))]
      omega

/-- `takeWhile`/`dropWhile` split an appended list exactly at the
boundary when everything before satisfies the test and the first thing
after does not. -/
theorem takeWhile_dropWhile_append (p : Char → Bool) (xs rest : Str)
    (h1 : ∀ c ∈ xs, p c = true)
    (h2 : ∀ c t, rest = c :: t → p c = false) :
    (xs ++ rest).takeWhile p = xs ∧ (xs ++ rest).dropWhile p = rest := by
  induction xs with
  | nil =>
    simp only [List.nil_append]
    cases rest with
    | nil => simp
    | cons c t => simp [List.takeWhile_cons, List.dropWhile_cons, h2 c t rfl]
  | cons x xs ih =>
    have hx : p x = true := h1 x (by simp)
    have := ih (fun c hc => h1 c (by simp [hc]))
    simp [List.takeWhile_cons, List.dropWhile_cons, hx, this.1, this.2]

/-- `parseNat` undoes `natChars` when no digit follows. -/
theorem parseNat_natChars (n : Nat) (rest : Str) (h : noDigitStart rest = true) :
    parseNat (natChars n ++ rest) = some (n, rest) := by
  have h2 : ∀ c t, rest = c :: t → isDig c = false := by
    intro c t he
    subst he
    simpa [noDigitStart] using h
  have hs := takeWhile_dropWhile_append isDig (natChars n) rest (natChars_digits n) h2
  have hne : ¬(natChars n).isEmpty = true := by
    simp [List.isEmpty_iff, natChars_ne_nil n]
  simp [parseNat, hs.1, hs.2, hne, foldl_natChars n]

/-- A digit character is none of the characters the value dispatcher
tests first, and is not inter-token whitespace. -/
theorem isDig_facts {c : Char} (h : isDig c = true) :
    isWs c = false ∧ c ≠ 'n' ∧ c ≠ 't' ∧ c ≠ 'f' ∧ c ≠ '"' ∧ c ≠ '[' ∧
      c ≠ '{' ∧ c ≠ '-' ∧ c ≠ ']' ∧ c ≠ '}' := by
  refine ⟨?_, ?_, ?_, ?_, ?_, ?_, ?_, ?_, ?_, ?_⟩
  · have : c ≠ ' ' ∧ c ≠ '\t' ∧ c ≠ '\n' ∧ c ≠ '\r' := by
      refine ⟨?_, ?_, ?_, ?_⟩ <;> (rintro rfl; exact absurd h (by decide))
    simp [isWs, this.1, this.2.1, this.2.2.1, this.2.2.2]
  all_goals (rintro rfl; exact absurd h (by decide))

/-- Skipping whitespace does nothing when the head is not whitespace. -/
theorem skipWs_cons_of {c : Char} (r : Str) (h : isWs c = false) :
    skipWs (c :: r) = c :: r := by
  simp [skipWs, List.dropWhile_cons, h]

/-- Skipping whitespace eats a whitespace head. -/
theorem skipWs_ws_cons {c : Char} (r : Str) (h : isWs c = true) :
    skipWs (c :: r) = skipWs r := by
  simp [skipWs, List.dropWhile_cons, h]

/-- The first character of any printed value: never empty, never
whitespace, never a closing bracket or brace. -/
theorem dumpsV_head (v : Json) :
    ∃ c t, dumpsV v = c :: t ∧ isWs c = false ∧ c ≠ ']' ∧ c ≠ '}' := by
  cases v with
  | null => exact ⟨'n', _, rfl, by decide⟩
  | bool b =>
    cases b with
    | false => exact ⟨'f', _, rfl, by decide⟩
    | true => exact ⟨'t', _, rfl, by decide⟩
  | num n =>
    rw [show dumpsV (.num n) = intChars n from rfl, intChars]
    by_cases hn : n < 0
    · rw [if_pos hn]
      exact ⟨'-', natChars n.natAbs, rfl, by decide, by decide, by decide⟩
    · rw [if_neg hn]
      obtain ⟨d, t, hd⟩ := List.exists_cons_of_ne_nil (natChars_ne_nil n.natAbs)
      have hdig : isDig d = true := natChars_digits _ d (hd ▸ List.mem_cons_self d t)
      have hf := isDig_facts hdig
      exact ⟨d, t, hd, hf.1, hf.2.2.2.2.2.2.2.2.1, hf.2.2.2.2.2.2.2.2.2⟩
  | str s => exact ⟨'"', _, rfl, by decide⟩
  | arr es => exact ⟨'[', _, rfl, by decide⟩
  | obj fs => exact ⟨'\x7b', _, rfl, by decide⟩

/-- Whitespace skipping passes over a printed value untouched. -/
theorem skipWs_dumpsV_append (v : Json) (rest : Str) :
    skipWs (dumpsV v ++ rest) = dumpsV v ++ rest := by
  obtain ⟨c, t, hd, hws, _, _⟩ := dumpsV_head v
  rw [hd, List.cons_append, skipWs_cons_of _ hws]

/-- Unfolding one step of the string-body reader. -/
theorem parseStrBody_cons (fuel : Nat) (c : Char) (rest : Str) :
    parseStrBody (fuel + 1) (c :: rest) =
      parseStrChar (parseStrBody fuel) c rest := rfl

/-- The escaped body of a printed string literal reads back as the
original characters, consuming the closing quote. -/
theorem parseStrBody_encode (s : Str) : ∀ (rest : Str) (fuel : Nat),
    s.length + 1 ≤ fuel →
    parseStrBody fuel ((s.map encodeChar).flatten ++ '"' :: rest) =
      some (s, rest) := by
  induction s with
  | nil =>
    intro rest fuel hf
    obtain ⟨g, rfl⟩ : ∃ g, fuel = g + 1 := ⟨fuel - 1, by omega⟩
    exact rfl
  | cons c s ih =>
    intro rest fuel hf
    obtain ⟨g, rfl⟩ : ∃ g, fuel = g + 1 := ⟨fuel - 1, by omega⟩
    have hg : s.length + 1 ≤ g := by simpa using hf
    simp only [List.map_cons, List.flatten_cons, List.append_assoc]
    set M := (s.map encodeChar).flatten ++ '"' :: rest with hM
    have ihM : parseStrBody g M = some (s, rest) := ih rest g hg
    by_cases h1 : c = '"'
    · subst h1
      show parseStrBody (g + 1) ('\\' :: '"' :: M) = _
      rw [show parseStrBody (g + 1) ('\\' :: '"' :: M) =
        (parseStrBody g M).map (fun p => ('"' :: p.1, p.2)) from rfl, ihM]
      rfl
    by_cases h2 : c = '\\'
    · subst h2
      show parseStrBody (g + 1) ('\\' :: '\\' :: M) = _
      rw [show parseStrBody (g + 1) ('\\' :: '\\' :: M) =
        (parseStrBody g M).map (fun p => ('\\' :: p.1, p.2)) from rfl, ihM]
      rfl
    by_cases h3 : c = '\x08'
    · subst h3
      show parseStrBody (g + 1) ('\\' :: 'b' :: M) = _
      rw [show parseStrBody (g + 1) ('\\' :: 'b' :: M) =
        (parseStrBody g M).map (fun p => ('\x08' :: p.1, p.2)) from rfl, ihM]
      rfl
    by_cases h4 : c = '\x0c'
    · subst h4
      show parseStrBody (g + 1) ('\\' :: 'f' :: M) = _
      rw [show parseStrBody (g + 1) ('\\' :: 'f' :: M) =
        (parseStrBody g M).map (fun p => ('\x0c' :: p.1, p.2)) from rfl, ihM]
      rfl
    by_cases h5 : c = '\n'
    · subst h5
      show parseStrBody (g + 1) ('\\' :: 'n' :: M) = _
      rw [show parseStrBody (g + 1) ('\\' :: 'n' :: M) =
        (parseStrBody g M).map (fun p => ('\n' :: p.1, p.2)) from rfl, ihM]
      rfl
    by_cases h6 : c = '\r'
    · subst h6
      show parseStrBody (g + 1) ('\\' :: 'r' :: M) = _
      rw [show parseStrBody (g + 1) ('\\' :: 'r' :: M) =
        (parseStrBody g M).map (fun p => ('\r' :: p.1, p.2)) from rfl, ihM]
      rfl
    by_cases h7 : c = '\t'
    · subst h7
      show parseStrBody (g + 1) ('\\' :: 't' :: M) = _
      rw [show parseStrBody (g + 1) ('\\' :: 't' :: M) =
        (parseStrBody g M).map (fun p => ('\t' :: p.1, p.2)) from rfl, ihM]
      rfl
    by_cases h8 : c.toNat < 0x20 ∨ (0x7e < c.toNat ∧ c.toNat < 0x10000)
    · -- a `\uXXXX` escape of a basic-plane character
      rw [encodeChar, if_neg h1, if_neg h2, if_neg h3, if_neg h4, if_neg h5,
        if_neg h6, if_neg h7, if_pos h8]
      have hlt : c.toNat < 65536 := by
        rcases h8 with h8 | h8 <;> omega
      simp only [List.cons_append, List.append_assoc]
      rw [show ∀ y, parseStrBody (g + 1) ('\\' :: 'u' :: y) =
          (parseHex4 y).bind (fun p => parseUVal (parseStrBody g) p.1 p.2) from
            fun y => rfl,
        parseHex4_hex4 c.toNat hlt M, Option.some_bind, parseUVal]
      have hb : (decide (0xd800 ≤ c.toNat) && decide (c.toNat < 0xdc00)) = false := by
        rcases toNat_isValidChar c with hv | hv
        · simp only [Bool.and_eq_false_iff, decide_eq_false_iff_not]
          omega
        · simp only [Bool.and_eq_false_iff, decide_eq_false_iff_not]
          omega
      rw [hb, if_neg (by simp), mkChar_toNat c, Option.some_bind, ihM]
      rfl
    by_cases h9 : 0xffff < c.toNat
    · -- a surrogate pair for a character beyond the basic plane
      rw [encodeChar, if_neg h1, if_neg h2, if_neg h3, if_neg h4, if_neg h5,
        if_neg h6, if_neg h7, if_neg h8, if_pos h9]
      have hmax : c.toNat < 0x110000 := by
        rcases toNat_isValidChar c with hv | hv <;> omega
      have hdivlt : (c.toNat - 0x10000) / 0x400 < 0x400 := by
        apply Nat.div_lt_of_lt_mul
        omega
      have hmodlt := Nat.mod_lt (c.toNat - 0x10000) (show 0 < 0x400 by omega)
      have hhi : 0xd800 + (c.toNat - 0x10000) / 0x400 < 65536 := by omega
      have hlo : 0xdc00 + (c.toNat - 0x10000) % 0x400 < 65536 := by omega
      simp only [List.cons_append, List.append_assoc]
      rw [show ∀ y, parseStrBody (g + 1) ('\\' :: 'u' :: y) =
          (parseHex4 y).bind (fun p => parseUVal (parseStrBody g) p.1 p.2) from
            fun y => rfl,
        parseHex4_hex4 _ hhi, Option.some_bind, parseUVal]
      have hb : (decide (0xd800 ≤ 0xd800 + (c.toNat - 0x10000) / 0x400) &&
          decide (0xd800 + (c.toNat - 0x10000) / 0x400 < 0xdc00)) = true := by
        simp only [Bool.and_eq_true, decide_eq_true_eq]
        omega
      rw [hb, if_pos rfl]
      simp only [List.cons_append, List.append_assoc]
      rw [show ∀ n y, parseUPair (parseStrBody g) n ('\\' :: 'u' :: y) =
          (parseHex4 y).bind (fun q => parseULow (parseStrBody g) n q.1 q.2) from
            fun n y => rfl,
        parseHex4_hex4 _ hlo, Option.some_bind, parseULow]
      have hb2 : (decide (0xdc00 ≤ 0xdc00 + (c.toNat - 0x10000) % 0x400) &&
          decide (0xdc00 + (c.toNat - 0x10000) % 0x400 < 0xe000)) = true := by
        simp only [Bool.and_eq_true, decide_eq_true_eq]
        omega
      rw [hb2, if_pos rfl]
      have harith : 0x10000 +
          (0xd800 + (c.toNat - 0x10000) / 0x400 - 0xd800) * 0x400 +
          (0xdc00 + (c.toNat - 0x10000) % 0x400 - 0xdc00) = c.toNat := by
        have := Nat.div_add_mod (c.toNat - 0x10000) 0x400
        omega
      rw [harith, mkChar_toNat c, Option.some_bind, ihM]
      rfl
    · -- a plain printable ASCII character, emitted unchanged
      rw [encodeChar, if_neg h1, if_neg h2, if_neg h3, if_neg h4, if_neg h5,
        if_neg h6, if_neg h7, if_neg h8, if_neg h9]
      have hge : ¬ c.toNat < 0x20 := by omega
      rw [List.cons_append, List.nil_append, parseStrBody_cons, parseStrChar,
        if_neg h1, if_neg h2, if_neg hge, ihM]
      rfl

/-- Every single-character escape is at least one character long. -/
theorem encodeChar_length_pos (c : Char) : 1 ≤ (encodeChar c).length := by
  rw [encodeChar]
  split_ifs <;> simp [hex4]

/-- An escaped string body is no shorter than the string. -/
theorem strBody_length_ge (s : Str) :
    s.length ≤ ((s.map encodeChar).flatten).length := by
  induction s with
  | nil => simp
  | cons c s ih =>
    simp only [List.map_cons, List.flatten_cons, List.length_append,
      List.length_cons]
    have := encodeChar_length_pos c
    omega

/-- A printed string literal is at least two characters longer than the
string. -/
theorem encodeStr_length (s : Str) : s.length + 2 ≤ (encodeStr s).length := by
  have := strBody_length_ge s
  simp only [encodeStr, List.length_cons, List.length_append,
    List.length_singleton]
  omega

/-- The printed form of an array with elements. -/
theorem dumpsV_arr_eq (es : List Json) :
    dumpsV (.arr es) = '[' :: dumpsElems es ++ [']'] := rfl

/-- The printed form of an object with members. -/
theorem dumpsV_obj_eq (fs : List (Str × Json)) :
    dumpsV (.obj fs) = '{' :: dumpsFields fs ++ ['}'] := rfl

/-- A one-element element list prints as the element. -/
theorem dumpsElems_single (e : Json) : dumpsElems [e] = dumpsV e := rfl

/-- A longer element list prints the head, `", "`, then the rest. -/
theorem dumpsElems_cons2 (e e' : Json) (t : List Json) :
    dumpsElems (e :: e' :: t) = dumpsV e ++ ',' :: ' ' :: dumpsElems (e' :: t) := rfl

/-- A one-member member list prints as `"key": value`. -/
theorem dumpsFields_single (k : Str) (v : Json) :
    dumpsFields [(k, v)] = encodeStr k ++ ':' :: ' ' :: dumpsV v := rfl

/-- A longer member list prints the head member, `", "`, then the rest. -/
theorem dumpsFields_cons2 (k : Str) (v : Json) (f' : Str × Json)
    (fs : List (Str × Json)) :
    dumpsFields ((k, v) :: f' :: fs) =
      encodeStr k ++ ':' :: ' ' :: dumpsV v ++ ',' :: ' ' :: dumpsFields (f' :: fs) := rfl

/-- The first character of a printed non-empty element list: never
whitespace, never a closing bracket or brace. -/
theorem dumpsElems_head (e : Json) (es : List Json) :
    ∃ c t, dumpsElems (e :: es) = c :: t ∧ isWs c = false ∧ c ≠ ']' ∧ c ≠ '}' := by
  obtain ⟨c, t, hd, hx, hy, hz⟩ := dumpsV_head e
  cases es with
  | nil => exact ⟨c, t, by rw [dumpsElems_single, hd], hx, hy, hz⟩
  | cons e' es' =>
    exact ⟨c, t ++ ',' :: ' ' :: dumpsElems (e' :: es'),
      by rw [dumpsElems_cons2, hd, List.cons_append], hx, hy, hz⟩

/-- A printed non-empty member list starts with the key's quote. -/
theorem dumpsFields_head (k : Str) (v : Json) (fs : List (Str × Json)) :
    ∃ t, dumpsFields ((k, v) :: fs) = '"' :: t := by
  cases fs with
  | nil =>
    exact ⟨(k.map encodeChar).flatten ++ ['"'] ++ ':' :: ' ' :: dumpsV v,
      by rw [dumpsFields_single, encodeStr]; simp⟩
  | cons f' fs' =>
    exact ⟨(k.map encodeChar).flatten ++ ['"'] ++ ':' :: ' ' :: dumpsV v ++
        ',' :: ' ' :: dumpsFields (f' :: fs'),
      by rw [dumpsFields_cons2, encodeStr]; simp⟩

/-- Reading the head case of a non-empty input. -/
theorem listCase_cons {α : Type} (c : Char) (r : Str) (f : Char → Str → Option α) :
    listCase (c :: r) f = f c r := rfl

/-- Unfolding one step of the value reader. -/
theorem parseVal_step (fuel : Nat) (input : Str) :
    parseVal (fuel + 1) input =
      listCase (skipWs input)
        (parseValHead (parseStrBody fuel) (parseElems fuel) (parseFields fuel)) := rfl

/-- Unfolding one step of the array-elements reader. -/
theorem parseElems_step (fuel : Nat) (input : Str) :
    parseElems (fuel + 1) input =
      (parseVal fuel input).bind fun p =>
        parseElemsSep (parseElems fuel) p.1 (skipWs p.2) := rfl

/-- Unfolding one step of the object-members reader. -/
theorem parseFields_step (fuel : Nat) (input : Str) :
    parseFields (fuel + 1) input =
      listCase (skipWs input) (fun c r =>
        if c = '"' then
          (parseStrBody fuel r).bind fun p =>
            parseFieldsColon (parseVal fuel) (parseFields fuel) p.1 (skipWs p.2)
        else none) := rfl

/-- Continuing past a comma between array elements. -/
theorem parseElemsSep_comma (pE : Str → Option (List Json × Str)) (v : Json)
    (r2 : Str) :
    parseElemsSep pE v (',' :: r2) = (pE r2).map fun p => (v :: p.1, p.2) := rfl

/-- Closing an array after its last element. -/
theorem parseElemsSep_close (pE : Str → Option (List Json × Str)) (v : Json)
    (r2 : Str) : parseElemsSep pE v (']' :: r2) = some ([v], r2) := rfl

/-- Passing the colon after a member key. -/
theorem parseFieldsColon_colon (pV : Str → Option (Json × Str))
    (pF : Str → Option (List (Str × Json) × Str)) (k : Str) (r2 : Str) :
    parseFieldsColon pV pF k (':' :: r2) =
      (pV r2).bind fun p => parseFieldsSep pF k p.1 (skipWs p.2) := rfl

/-- Continuing past a comma between object members. -/
theorem parseFieldsSep_comma (pF : Str → Option (List (Str × Json) × Str))
    (k : Str) (v : Json) (r4 : Str) :
    parseFieldsSep pF k v (',' :: r4) =
      (pF r4).map fun p => ((k, v) :: p.1, p.2) := rfl

/-- Closing an object after its last member. -/
theorem parseFieldsSep_close (pF : Str → Option (List (Str × Json) × Str))
    (k : Str) (v : Json) (r4 : Str) :
    parseFieldsSep pF k v ('}' :: r4) = some ([(k, v)], r4) := rfl

/-- The combined completeness statement: a printed value, element list
or member list reads back exactly, whatever follows, by strong
induction on the fuel. -/
theorem parse_dumps_main (fuel : Nat) :
    (∀ (v : Json) (rest i : Str), (dumpsV v).length ≤ fuel →
      noDigitStart rest = true → skipWs i = dumpsV v ++ rest →
      parseVal fuel i = some (v, rest)) ∧
    (∀ (es : List Json) (rest i : Str), es ≠ [] →
      (dumpsElems es).length + 1 ≤ fuel →
      skipWs i = dumpsElems es ++ ']' :: rest →
      parseElems fuel i = some (es, rest)) ∧
    (∀ (fs : List (Str × Json)) (rest i : Str), fs ≠ [] →
      (dumpsFields fs).length + 1 ≤ fuel →
      skipWs i = dumpsFields fs ++ '}' :: rest →
      parseFields fuel i = some (fs, rest)) := by
  induction fuel using Nat.strong_induction_on with
  | _ fuel ih =>
    obtain rfl | ⟨g, rfl⟩ : fuel = 0 ∨ ∃ g, fuel = g + 1 := by
      rcases fuel with _ | g
      · exact Or.inl rfl
      · exact Or.inr ⟨g, rfl⟩
    · refine ⟨fun v rest i hlen _ _ => ?_,
        fun es rest i _ hlen _ => by omega, fun fs rest i _ hlen _ => by omega⟩
      obtain ⟨c, t, hd, -, -, -⟩ := dumpsV_head v
      rw [hd] at hlen
      simp at hlen
    obtain ⟨ih1, ih2, ih3⟩ := ih g (by omega)
    refine ⟨?_, ?_, ?_⟩
    · -- one value
      intro v rest i hlen hrest hskip
      rw [parseVal_step, hskip]
      cases v with
      | null => rfl
      | bool b => cases b <;> rfl
      | num n =>
        rw [show dumpsV (.num n) = intChars n from rfl, intChars]
        by_cases hn : n < 0
        · rw [if_pos hn, List.cons_append, listCase_cons]
          show (parseNat (natChars n.natAbs ++ rest)).map _ = _
          rw [parseNat_natChars n.natAbs rest hrest]
          show some (Json.num (-(n.natAbs : Int)), rest) = _
          have hcast : (-(n.natAbs : Int)) = n := by omega
          rw [hcast]
        · rw [if_neg hn]
          obtain ⟨d, t, hd⟩ := List.exists_cons_of_ne_nil (natChars_ne_nil n.natAbs)
          have hdig : isDig d = true :=
            natChars_digits _ d (hd ▸ List.mem_cons_self d t)
          obtain ⟨hws, hn', ht', hf', hq', hlb', hcb', hmin', -, -⟩ :=
            isDig_facts hdig
          rw [hd, List.cons_append, listCase_cons, parseValHead,
            if_neg hn', if_neg ht', if_neg hf', if_neg hq', if_neg hlb',
            if_neg hcb', if_neg hmin', if_pos hdig, ← List.cons_append, ← hd,
            parseNat_natChars n.natAbs rest hrest]
          show some (Json.num (n.natAbs : Int), rest) = _
          have hcast : ((n.natAbs : Int)) = n := by omega
          rw [hcast]
      | str s =>
        rw [show dumpsV (.str s) = encodeStr s from rfl, encodeStr]
        simp only [List.cons_append, List.append_assoc, List.singleton_append,
            List.nil_append]
        rw [listCase_cons]
        show (parseStrBody g ((s.map encodeChar).flatten ++ '"' :: rest)).map
          (fun p => (Json.str p.1, p.2)) = _
        have hg : s.length + 1 ≤ g := by
          have h2 := encodeStr_length s
          have h3 : (dumpsV (.str s)).length = (encodeStr s).length := rfl
          omega
        rw [parseStrBody_encode s rest g hg]
        rfl
      | arr es =>
        cases es with
        | nil => rfl
        | cons e es =>
          rw [dumpsV_arr_eq]
          simp only [List.cons_append, List.append_assoc, List.singleton_append,
            List.nil_append]
          rw [listCase_cons, parseValHead,
            if_neg (by decide), if_neg (by decide), if_neg (by decide),
            if_neg (by decide), if_pos rfl]
          obtain ⟨c, t, hd, hws, hrb, -⟩ := dumpsElems_head e es
          have hlena : (dumpsElems (e :: es)).length + 1 ≤ g := by
            have h4 := congrArg List.length (dumpsV_arr_eq (e :: es))
            simp only [List.length_append, List.length_cons,
              List.length_singleton] at h4
            omega
          rw [hd, List.cons_append, skipWs_cons_of _ hws, List.headD_cons,
            if_neg hrb,
            ih2 (e :: es) rest (c :: (t ++ ']' :: rest)) (by simp) hlena
              (by rw [skipWs_cons_of _ hws, hd, List.cons_append])]
          rfl
      | obj fs =>
        cases fs with
        | nil => rfl
        | cons f fs =>
          obtain ⟨k, v⟩ := f
          rw [dumpsV_obj_eq]
          simp only [List.cons_append, List.append_assoc, List.singleton_append,
            List.nil_append]
          rw [listCase_cons, parseValHead,
            if_neg (by decide), if_neg (by decide), if_neg (by decide),
            if_neg (by decide), if_neg (by decide), if_pos rfl]
          obtain ⟨t, hd⟩ := dumpsFields_head k v fs
          have hlenf : (dumpsFields ((k, v) :: fs)).length + 1 ≤ g := by
            have h4 := congrArg List.length (dumpsV_obj_eq ((k, v) :: fs))
            simp only [List.length_append, List.length_cons,
              List.length_singleton] at h4
            omega
          rw [hd, List.cons_append, skipWs_cons_of _ (by decide),
            List.headD_cons, if_neg (by decide),
            ih3 ((k, v) :: fs) rest ('"' :: (t ++ '}' :: rest)) (by simp) hlenf
              (by rw [skipWs_cons_of _ (by decide), hd, List.cons_append])]
          rfl
    · -- a non-empty element list
      intro es rest i hne hlen hskip
      obtain ⟨e, es, rfl⟩ : ∃ e t, es = e :: t := by
        cases es with
        | nil => exact absurd rfl hne
        | cons e t => exact ⟨e, t, rfl⟩
      rw [parseElems_step]
      cases es with
      | nil =>
        rw [dumpsElems_single] at hskip hlen
        have hfe : (dumpsV e).length ≤ g := by omega
        rw [ih1 e (']' :: rest) i hfe rfl hskip,
          Option.some_bind]
        show parseElemsSep (parseElems g) e (skipWs (']' :: rest)) = _
        rw [skipWs_cons_of _ (by decide), parseElemsSep_close]
      | cons e' t =>
        have hlen2 := congrArg List.length (dumpsElems_cons2 e e' t)
        simp only [List.length_append, List.length_cons] at hlen2
        rw [dumpsElems_cons2] at hskip
        simp only [List.cons_append, List.append_assoc] at hskip
        have hfe : (dumpsV e).length ≤ g := by omega
        rw [ih1 e (',' :: ' ' :: (dumpsElems (e' :: t) ++ ']' :: rest)) i
            hfe rfl hskip,
          Option.some_bind]
        show parseElemsSep (parseElems g) e
          (skipWs (',' :: ' ' :: (dumpsElems (e' :: t) ++ ']' :: rest))) = _
        obtain ⟨c, t2, hd2, hws2, -, -⟩ := dumpsElems_head e' t
        have hfe2 : (dumpsElems (e' :: t)).length + 1 ≤ g := by omega
        rw [skipWs_cons_of _ (by decide), parseElemsSep_comma,
          ih2 (e' :: t) rest (' ' :: (dumpsElems (e' :: t) ++ ']' :: rest))
            (by simp) hfe2
            (by rw [skipWs_ws_cons _ (by decide), hd2, List.cons_append,
              skipWs_cons_of _ hws2, ← List.cons_append, ← hd2])]
        rfl
    · -- a non-empty member list
      intro fs rest i hne hlen hskip
      obtain ⟨k, v, fs, rfl⟩ : ∃ k v t, fs = (k, v) :: t := by
        cases fs with
        | nil => exact absurd rfl hne
        | cons f t => exact ⟨f.1, f.2, t, by rw [Prod.mk.eta]⟩
      rw [parseFields_step, hskip]
      have hkg : k.length + 1 ≤ g := by
        have h2 := encodeStr_length k
        have h3 : (encodeStr k).length ≤ (dumpsFields ((k, v) :: fs)).length := by
          cases fs with
          | nil =>
            have h5 := congrArg List.length (dumpsFields_single k v)
            simp only [List.length_append, List.length_cons] at h5
            omega
          | cons f2 fs2 =>
            have h5 := congrArg List.length (dumpsFields_cons2 k v f2 fs2)
            simp only [List.length_append, List.length_cons] at h5
            omega
        omega
      cases fs with
      | nil =>
        have h5 := congrArg List.length (dumpsFields_single k v)
        simp only [List.length_append, List.length_cons] at h5
        have hvg : (dumpsV v).length ≤ g := by
          have h2 := encodeStr_length k
          omega
        rw [dumpsFields_single, encodeStr]
        simp only [List.cons_append, List.append_assoc, List.singleton_append,
            List.nil_append]
        rw [listCase_cons, if_pos rfl,
          parseStrBody_encode k (':' :: ' ' :: (dumpsV v ++ '}' :: rest)) g hkg,
          Option.some_bind]
        show parseFieldsColon (parseVal g) (parseFields g) k
          (skipWs (':' :: ' ' :: (dumpsV v ++ '}' :: rest))) = _
        rw [skipWs_cons_of _ (by decide), parseFieldsColon_colon,
          ih1 v ('}' :: rest) (' ' :: (dumpsV v ++ '}' :: rest)) hvg rfl
            (by rw [skipWs_ws_cons _ (by decide), skipWs_dumpsV_append]),
          Option.some_bind]
        show parseFieldsSep (parseFields g) k v (skipWs ('}' :: rest)) = _
        rw [skipWs_cons_of _ (by decide), parseFieldsSep_close]
      | cons f2 fs2 =>
        have h5 := congrArg List.length (dumpsFields_cons2 k v f2 fs2)
        simp only [List.length_append, List.length_cons] at h5
        have hvg : (dumpsV v).length ≤ g := by
          have h2 := encodeStr_length k
          omega
        rw [dumpsFields_cons2, encodeStr]
        simp only [List.cons_append, List.append_assoc, List.singleton_append,
            List.nil_append]
        rw [listCase_cons, if_pos rfl,
          parseStrBody_encode k
            (':' :: ' ' :: (dumpsV v ++ ',' :: ' ' ::
              (dumpsFields (f2 :: fs2) ++ '}' :: rest))) g hkg,
          Option.some_bind]
        show parseFieldsColon (parseVal g) (parseFields g) k
          (skipWs (':' :: ' ' :: (dumpsV v ++ ',' :: ' ' ::
            (dumpsFields (f2 :: fs2) ++ '}' :: rest)))) = _
        rw [skipWs_cons_of _ (by decide), parseFieldsColon_colon,
          ih1 v (',' :: ' ' :: (dumpsFields (f2 :: fs2) ++ '}' :: rest))
            (' ' :: (dumpsV v ++ ',' :: ' ' ::
              (dumpsFields (f2 :: fs2) ++ '}' :: rest)))
            hvg rfl
            (by rw [skipWs_ws_cons _ (by decide), skipWs_dumpsV_append]),
          Option.some_bind]
        show parseFieldsSep (parseFields g) k v
          (skipWs (',' :: ' ' :: (dumpsFields (f2 :: fs2) ++ '}' :: rest))) = _
        obtain ⟨t2, hd2⟩ := dumpsFields_head f2.1 f2.2 fs2
        rw [Prod.mk.eta] at hd2
        have hff2 : (dumpsFields (f2 :: fs2)).length + 1 ≤ g := by omega
        rw [skipWs_cons_of _ (by decide), parseFieldsSep_comma,
          ih3 (f2 :: fs2) rest
            (' ' :: (dumpsFields (f2 :: fs2) ++ '}' :: rest)) (by simp)
            hff2
            (by rw [skipWs_ws_cons _ (by decide), hd2, List.cons_append,
              skipWs_cons_of _ (by decide), ← List.cons_append, ← hd2])]
        rfl

/-- `json.loads` undoes `json.dumps`: the round-trip law the storage of
the sequence-valued columns relies on. -/
theorem loads_dumpsV (v : Json) : loads (dumpsV v) = some v := by
  have h := (parse_dumps_main ((dumpsV v).length + 1)).1 v [] (dumpsV v)
    (by omega) (by decide)
    (by rw [List.append_nil]
        have := skipWs_dumpsV_append v []
        rwa [List.append_nil] at this)
  rw [loads, h]
  rfl

/-! ## Facts about the store model -/

/-- A truthy value is not `None`. -/
theorem truthy_not_isNull {v : Json} (h : truthy v = true) : v.isNull = false := by
  cases v <;> simp_all [truthy, Json.isNull]

/-- Printed values are never the empty string. -/
theorem dumpsV_ne_nil (v : Json) : dumpsV v ≠ [] := by
  obtain ⟨c, t, hd, -, -, -⟩ := dumpsV_head v
  simp [hd]

/-- Reading a stored sequence column back recovers the stored value. -/
theorem decodeSeq_dumpsV (v : Json) : decodeSeq (dumpsV v) = some v := by
  rw [decodeSeq, if_neg (by simp [List.isEmpty_iff, dumpsV_ne_nil v]),
    loads_dumpsV]

/-- Unfolding the insertion into a descending list below a larger
stamp. -/
theorem insertDesc_lt (x r : Row) (l : List Row)
    (h : x.created_at < r.created_at) :
    insertDesc x (r :: l) = r :: insertDesc x l := by
  rw [insertDesc, if_neg (by omega)]

/-- `sortDesc` peels one element. -/
theorem sortDesc_cons (x : Row) (l : List Row) :
    sortDesc (x :: l) = insertDesc x (sortDesc l) := rfl

/-- A row stamped later than every existing row sorts to the front. -/
theorem sortDesc_snoc_max (rows : List Row) (r : Row)
    (h : ∀ x ∈ rows, x.created_at < r.created_at) :
    sortDesc (rows ++ [r]) = r :: sortDesc rows := by
  induction rows with
  | nil => rfl
  | cons x xs ih =>
    rw [List.cons_append, sortDesc_cons,
      ih (fun y hy => h y (List.mem_cons_of_mem x hy)),
      insertDesc_lt x r _ (h x (List.mem_cons_self x xs)), sortDesc_cons]

/-- Membership through insertion. -/
theorem mem_insertDesc {x r : Row} {l : List Row} :
    x ∈ insertDesc r l ↔ x = r ∨ x ∈ l := by
  induction l with
  | nil => simp [insertDesc]
  | cons y ys ih =>
    rw [insertDesc]
    by_cases hc : y.created_at ≤ r.created_at
    · simp [hc]
    · simp only [hc, if_false, List.mem_cons, ih]
      tauto

/-- Sorting permutes nothing in and nothing out. -/
theorem mem_sortDesc {x : Row} {l : List Row} : x ∈ sortDesc l ↔ x ∈ l := by
  induction l with
  | nil => simp [sortDesc]
  | cons y ys ih =>
    rw [sortDesc_cons, mem_insertDesc, ih]
    simp

/-- Insertion preserves the descending pairwise order. -/
theorem pairwise_insertDesc (r : Row) (l : List Row)
    (h : l.Pairwise fun a b => b.created_at ≤ a.created_at) :
    (insertDesc r l).Pairwise fun a b => b.created_at ≤ a.created_at := by
  induction l with
  | nil => simp [insertDesc]
  | cons y ys ih =>
    rw [List.pairwise_cons] at h
    rw [insertDesc]
    by_cases hc : y.created_at ≤ r.created_at
    · rw [if_pos hc, List.pairwise_cons]
      refine ⟨?_, by rw [List.pairwise_cons]; exact h⟩
      intro b hb
      rcases List.mem_cons.mp hb with rfl | hb
      · exact hc
      · exact le_trans (h.1 b hb) hc
    · rw [if_neg hc, List.pairwise_cons]
      refine ⟨?_, ih h.2⟩
      intro b hb
      rcases mem_insertDesc.mp hb with rfl | hb
      · omega
      · exact h.1 b hb

/-- The sorted read-back order is descending by `created_at`. -/
theorem pairwise_sortDesc (l : List Row) :
    (sortDesc l).Pairwise fun a b => b.created_at ≤ a.created_at := by
  induction l with
  | nil => simp [sortDesc]
  | cons y ys ih => exact pairwise_insertDesc y _ ih

/-- A list of rows that all read back maps to some list of records. -/
theorem mapM_readRow_isSome (l : List Row)
    (h : ∀ x ∈ l, (readRow x).isSome = true) :
    ∃ l', l.mapM readRow = some l' := by
  induction l with
  | nil => exact ⟨[], rfl⟩
  | cons x xs ih =>
    obtain ⟨rx, hx⟩ := Option.isSome_iff_exists.mp (h x (List.mem_cons_self x xs))
    obtain ⟨l', hl'⟩ := ih fun y hy => h y (List.mem_cons_of_mem x hy)
    exact ⟨rx :: l', by rw [List.mapM_cons, hx, hl']; rfl⟩

/-- Every produced record comes from some row of the input. -/
theorem mapM_readRow_mem {l : List Row} {l' : List Rec}
    (h : l.mapM readRow = some l') :
    ∀ y ∈ l', ∃ x ∈ l, readRow x = some y := by
  induction l generalizing l' with
  | nil =>
    simp only [List.mapM_nil, Option.pure_def, Option.some.injEq] at h
    subst h
    simp
  | cons x xs ih =>
    rw [List.mapM_cons] at h
    rcases hx : readRow x with - | rx
    · rw [hx] at h
      simp at h
    · rw [hx] at h
      rcases hxs : xs.mapM readRow with - | ys
      · rw [hxs] at h
        simp at h
      · rw [hxs] at h
        simp at h
        subst h
        intro y hy
        rcases List.mem_cons.mp hy with rfl | hy
        · exact ⟨x, List.mem_cons_self x xs, hx⟩
        · obtain ⟨z, hz, hzr⟩ := ih hxs y hy
          exact ⟨z, List.mem_cons_of_mem x hz, hzr⟩

/-- A successfully read record copies the row's scalar columns and
timestamp verbatim. -/
theorem readRow_fields {r : Row} {s : Rec} (h : readRow r = some s) :
    s.industry_sector = r.industry_sector ∧ s.founding_year = r.founding_year ∧
      s.created_at = r.created_at := by
  rw [readRow] at h
  rcases h1 : decodeSeq r.founders with - | f <;> rw [h1] at h <;>
    [exact absurd h (by simp); skip]
  rcases h2 : decodeSeq r.funding_rounds with - | fr <;> rw [h2] at h <;>
    [exact absurd h (by simp); skip]
  rcases h3 : decodeSeq r.key_partnerships with - | kp <;> rw [h3] at h <;>
    [exact absurd h (by simp); skip]
  rcases h4 : decodeSeq r.major_competitors with - | mc <;> rw [h4] at h <;>
    [exact absurd h (by simp); skip]
  simp at h
  subst h
  exact ⟨rfl, rfl, rfl⟩

/-! ## Facts about the candidate loop -/

/-- A truthy company name makes the insert succeed (its `NOT NULL`
check passes). -/
theorem save_succeeds {d : RawRec} (db : DB)
    (h : truthy (resolve_company_name d) = true) :
    (save_startup_to_db d db).2 = true := by
  rw [save_startup_to_db, truthy_not_isNull h]
  rfl

/-- The shape of a successful insert: one row appended, clock bumped. -/
theorem save_rows {d : RawRec} (db : DB)
    (h : truthy (resolve_company_name d) = true) :
    ∃ row, (save_startup_to_db d db).1.rows = db.rows ++ [row] ∧
      (save_startup_to_db d db).1.clock = db.clock + 1 ∧
      row.created_at = db.clock ∧
      row.founders = dumpsV (resolve_founders d) ∧
      row.funding_rounds = dumpsV (resolve_funding_rounds d) ∧
      row.key_partnerships = dumpsV (resolve_key_partnerships d) ∧
      row.major_competitors = dumpsV (resolve_major_competitors d) ∧
      row.industry_sector = resolve_industry_sector d ∧
      row.founding_year = resolve_founding_year d ∧
      row.company_name = resolve_company_name d := by
  rw [save_startup_to_db, truthy_not_isNull h]
  exact ⟨_, rfl, rfl, rfl, rfl, rfl, rfl, rfl, rfl, rfl, rfl⟩

/-- The loop on a dict candidate: gate on the resolved name. -/
theorem saveLoop_cons_obj (db : DB) (d : RawRec) (rest : List Json) :
    saveLoop db (.obj d :: rest) =
      if truthy (resolve_company_name d) then
        (let r := save_startup_to_db d db
         let t := saveLoop r.1 rest
         (t.1, (if r.2 then 1 else 0) + t.2))
      else saveLoop db rest := rfl

/-- The loop skips `None`. -/
theorem saveLoop_cons_null (db : DB) (rest : List Json) :
    saveLoop db (.null :: rest) = saveLoop db rest := rfl

/-- The loop skips booleans. -/
theorem saveLoop_cons_bool (db : DB) (b : Bool) (rest : List Json) :
    saveLoop db (.bool b :: rest) = saveLoop db rest := rfl

/-- The loop skips numbers. -/
theorem saveLoop_cons_num (db : DB) (n : Int) (rest : List Json) :
    saveLoop db (.num n :: rest) = saveLoop db rest := rfl

/-- The loop skips strings. -/
theorem saveLoop_cons_str (db : DB) (t : Str) (rest : List Json) :
    saveLoop db (.str t :: rest) = saveLoop db rest := rfl

/-- The loop skips nested lists. -/
theorem saveLoop_cons_arr (db : DB) (es : List Json) (rest : List Json) :
    saveLoop db (.arr es :: rest) = saveLoop db rest := rfl

/-- A candidate failing the gate changes neither store nor count. -/
theorem saveLoop_skip (db : DB) (pre post : List Json) (d : RawRec)
    (h : truthy (resolve_company_name d) = false) :
    saveLoop db (pre ++ .obj d :: post) = saveLoop db (pre ++ post) := by
  induction pre generalizing db with
  | nil =>
    rw [List.nil_append, List.nil_append, saveLoop_cons_obj, if_neg (by simp [h])]
  | cons s pre ih =>
    rw [List.cons_append, List.cons_append]
    cases s with
    | obj d' =>
      rw [saveLoop_cons_obj, saveLoop_cons_obj]
      by_cases hd' : truthy (resolve_company_name d') = true
      · rw [if_pos hd', if_pos hd']
        simp only []
        rw [ih]
      · rw [if_neg (by simp [hd']), if_neg (by simp [hd'])]
        exact ih db
    | null => rw [saveLoop_cons_null, saveLoop_cons_null]; exact ih db
    | bool b => rw [saveLoop_cons_bool, saveLoop_cons_bool]; exact ih db
    | num n => rw [saveLoop_cons_num, saveLoop_cons_num]; exact ih db
    | str t => rw [saveLoop_cons_str, saveLoop_cons_str]; exact ih db
    | arr es => rw [saveLoop_cons_arr, saveLoop_cons_arr]; exact ih db

/-- The loop counts exactly the accepted candidates (inserts of
accepted candidates always succeed). -/
theorem saveLoop_count (startups : List Json) : ∀ db : DB,
    (saveLoop db startups).2 = startups.countP candidateAccepted := by
  induction startups with
  | nil => intro db; rfl
  | cons s rest ih =>
    intro db
    rw [List.countP_cons]
    cases s with
    | obj d =>
      rw [saveLoop_cons_obj]
      by_cases hd : truthy (resolve_company_name d) = true
      · rw [if_pos hd]
        simp only [save_succeeds db hd, if_pos]
        show (if True then 1 else 0) + (saveLoop _ rest).2 = _
        rw [ih]
        simp [candidateAccepted, hd, Nat.add_comm]
      · rw [if_neg (by simp [hd]), ih]
        simp only [candidateAccepted]
        simp at hd
        simp [hd]
    | null => rw [saveLoop_cons_null, ih]; simp [candidateAccepted]
    | bool b => rw [saveLoop_cons_bool, ih]; simp [candidateAccepted]
    | num n => rw [saveLoop_cons_num, ih]; simp [candidateAccepted]
    | str t => rw [saveLoop_cons_str, ih]; simp [candidateAccepted]
    | arr es => rw [saveLoop_cons_arr, ih]; simp [candidateAccepted]

/-- The early return of `save_startups_to_db` on an empty list agrees
with the loop, so the two coincide. -/
theorem save_startups_eq_loop (db : DB) (startups : List Json) :
    save_startups_to_db db startups = saveLoop db startups := by
  cases startups <;> rfl

/-! ## Spec-side characterizations of field resolution -/

/-- Presence lookup over two keys agrees with nested `get`-with-default. -/
theorem keyPresence_two (d : RawRec) (k1 k2 : Str) (dflt : Json) :
    keyPresence d [k1, k2] dflt = getD d k1 (getD d k2 dflt) := by
  rcases h1 : dget d k1 with - | v1
  · rcases h2 : dget d k2 with - | v2
    · simp [keyPresence, getD, h1, h2]
    · simp [keyPresence, getD, h1, h2]
  · simp [keyPresence, getD, h1]

/-! ## The claims -/

/-- C1 (counterexample): the claimed resolution order fails on the
sequence-valued fields.  With `Founders` present but empty and
`founders` holding a non-empty list, `first non-empty wins` predicts
the non-empty canonical value, but the code stores the empty label
value, because sequence fields use key presence, not truthiness. -/
theorem c1_resolution_counterexample :
    resolve_founders
        [("Founders".toList, Json.arr []),
         ("founders".toList, Json.arr [Json.str ['A']])] = Json.arr [] ∧
      Json.arr [] ≠ Json.arr [Json.str ['A']] :=
  ⟨rfl, by simp⟩

/-- C1 (amended): every text and numeric field resolves to the first
truthy value of its label and canonical lookups, falling back to a
presence-lookup of the short alias with the field default (so falsy
values such as `0`, `""` and `None` are skipped, and a present-but-null
alias yields `None`); the four sequence-valued fields and
`business_model` have no short alias, and the sequence fields resolve
purely by key presence — the label key if present (even when empty),
else the canonical key if present, else the empty sequence. -/
theorem c1_resolution_amended (d : RawRec) :
    resolve_company_name d =
      firstTruthy [getN d "Company Name".toList, getN d "company_name".toList]
        (getD d "name".toList (.str [])) ∧
    resolve_website_url d =
      firstTruthy [getN d "Website URL".toList, getN d "website_url".toList]
        (getD d "website".toList (.str [])) ∧
    resolve_founding_year d =
      firstTruthy [getN d "Founding Year".toList, getN d "founding_year".toList]
        (getD d "founded".toList .null) ∧
    resolve_founders d =
      keyPresence d ["Founders".toList, "founders".toList] (.arr []) ∧
    resolve_business_model d =
      firstTruthy [getN d "Business Model".toList]
        (getD d "business_model".toList (.str [])) ∧
    resolve_industry_sector d =
      firstTruthy [getN d "Industry Sector".toList, getN d "industry_sector".toList]
        (getD d "industry".toList (.str [])) ∧
    resolve_funding_rounds d =
      keyPresence d ["Funding Rounds".toList, "funding_rounds".toList] (.arr []) ∧
    resolve_total_capital_raised d =
      firstTruthy [getN d "Total Capital Raised to Date".toList,
          getN d "total_capital_raised".toList]
        (getD d "total_funding".toList (.str [])) ∧
    resolve_current_revenue_estimates d =
      firstTruthy [getN d "Current Revenue Estimates".toList,
          getN d "current_revenue_estimates".toList]
        (getD d "revenue".toList (.str [])) ∧
    resolve_employee_count d =
      firstTruthy [getN d "Employee Count".toList, getN d "employee_count".toList]
        (getD d "employees".toList .null) ∧
    resolve_customer_user_base_size d =
      firstTruthy [getN d "Customer/User Base Size".toList,
          getN d "customer_user_base_size".toList]
        (getD d "users".toList (.str [])) ∧
    resolve_key_partnerships d =
      keyPresence d ["Key Partnerships".toList, "key_partnerships".toList] (.arr []) ∧
    resolve_major_competitors d =
      keyPresence d ["Major Competitors".toList, "major_competitors".toList] (.arr []) ∧
    resolve_recent_news_developments d =
      firstTruthy [getN d "Recent News or Developments".toList,
          getN d "recent_news_developments".toList]
        (getD d "recent_news".toList (.str [])) :=
  ⟨rfl, rfl, rfl, (keyPresence_two d _ _ _).symm, rfl, rfl,
    (keyPresence_two d _ _ _).symm, rfl, rfl, rfl, rfl,
    (keyPresence_two d _ _ _).symm, (keyPresence_two d _ _ _).symm, rfl⟩

/-- C3: a candidate dict whose company name resolves falsy under every
alias is rejected: the batch saver of `parse_results_to_db.py` inserts
no row for it, counts it as unsaved, and processes the surrounding
candidates exactly as if it were absent. -/
theorem c3_reject_skips (db : DB) (pre post : List Json) (d : RawRec)
    (h : truthy (resolve_company_name d) = false) :
    save_startups_to_db db (pre ++ .obj d :: post) =
      save_startups_to_db db (pre ++ post) := by
  rw [save_startups_eq_loop, save_startups_eq_loop]
  exact saveLoop_skip db pre post d h

/-- C3 (witness): a concrete nameless candidate leaves the store empty
and the saved count zero. -/
theorem c3_reject_skips_witness :
    save_startups_to_db emptyDB
        ([] ++ Json.obj [("note".toList, Json.str ['x'])] :: []) =
      save_startups_to_db emptyDB ([] ++ []) :=
  c3_reject_skips emptyDB [] [] [("note".toList, Json.str ['x'])] rfl

/-- C4: the claim states no ingestion path persists an empty
`company_name`, and the validity gate of
`research_startups.parse_and_save_result_file` accepts a record keyed
only by the canonical `company_name`; but the saver it calls reads only
the label key `Company Name`, so the file below is reported saved while
the persisted row carries an empty company name — contradicting both
the claim and the gate's own intent. -/
theorem c4_rs_inserts_empty_name :
    (RS.parse_and_save_result_file
        "[\x7b\"company_name\": \"Acme\"\x7d]".toList emptyDB).2 = true ∧
    ((RS.parse_and_save_result_file
        "[\x7b\"company_name\": \"Acme\"\x7d]".toList emptyDB).1.rows.map
      (fun r => r.company_name)) = [Json.str []] ∧
    truthy (Json.str []) = false :=
  ⟨rfl, rfl, rfl⟩

/-- C9: over the empty store the statistics are zero rows, no
industries, a null average founding year and zero disclosed-funding
records; in general the disclosed count is exactly the number of rows
whose `total_capital_raised` is non-null, non-empty and not the literal
`Not disclosed`, and every reported industry value is non-null and
non-empty. -/
theorem c9_stats_characterization :
    get_database_stats emptyDB =
      { total_startups := 0, industries := [], avg_founding_year := none,
        total_funding_disclosed := 0 } ∧
    (∀ db : DB, (get_database_stats db).total_funding_disclosed =
      (db.rows.filter fun r =>
        !(r.total_capital_raised.isNull) &&
        !(r.total_capital_raised.eqStr []) &&
        !(r.total_capital_raised.eqStr "Not disclosed".toList)).length) ∧
    (∀ db : DB, (get_database_stats db).industries.all
      (fun v => !v.isNull && !(v.eqStr [])) = true) := by
  refine ⟨rfl, fun db => ?_, fun db => ?_⟩
  · rw [get_database_stats]
    simp only [disclosedTest, List.countP_eq_length_filter]
  · rw [get_database_stats]
    simp only [List.all_eq_true]
    intro v hv
    have hv2 : v ∈ (db.rows.map (fun r => r.industry_sector)).filter
        (fun w => !w.isNull && !(w.eqStr [])) := by
      have hsub : ∀ (l : List Json) (acc : List Json) (x : Json),
          x ∈ l.foldl (fun acc v =>
            if acc.any (fun w => dumpsV w = dumpsV v) then acc
            else acc ++ [v]) acc → x ∈ acc ∨ x ∈ l := by
        intro l
        induction l with
        | nil => intro acc x hx; exact Or.inl hx
        | cons y ys ih =>
          intro acc x hx
          simp only [List.foldl_cons] at hx
          rcases ih _ x hx with hx2 | hx2
          · by_cases hc : acc.any (fun w => dumpsV w = dumpsV y) = true
            · rw [if_pos hc] at hx2
              exact Or.inl hx2
            · rw [if_neg hc] at hx2
              rcases List.mem_append.mp hx2 with hx3 | hx3
              · exact Or.inl hx3
              · simp at hx3
                subst hx3
                exact Or.inr (List.mem_cons_self _ ys)
          · exact Or.inr (List.mem_cons_of_mem y hx2)
      rcases hsub _ [] v hv with hx | hx
      · simp at hx
      · exact hx
    have := List.of_mem_filter hv2
    simpa using this

/-- A strict parse success needs no recovery. -/
theorem recoveredData_of_loads {content : Str} {v : Json}
    (h : loads (pyStrip content) = some v) : recoveredData content = some v := by
  have hne : (pyStrip content).isEmpty = false := by
    rcases hh : pyStrip content with - | ⟨c, t⟩
    · rw [hh] at h
      rw [show loads ([] : Str) = none from rfl] at h
      cases h
    · rfl
  simp [recoveredData, hne, h]

/-- C6 (counterexample): a file holding the valid JSON array `[]` has
`N = 0` candidates, yet ingestion answers HTTP 400 instead of the
report `attempted=0, saved=0` the claim promises. -/
theorem c6_report_counterexample :
    save_from_file [("f.json".toList, "[]".toList)] emptyDB "f.json".toList =
        (.err 400, emptyDB) ∧
      ApiResponse.err 400 ≠ ApiResponse.single 0 0 :=
  ⟨rfl, by simp⟩

/-- C6 (amended): for an existing file whose stripped text parses
strictly as a JSON array of `N ≥ 1` objects, ingestion reports
`startups_found = N` and `startups_saved = M`, where `M` counts the
candidates whose company name resolves truthy (inserts of accepted
records always succeed in the store model). -/
theorem c6_report_amended (fs : FS) (db : DB) (fn : Str) (items : List Json)
    (hex : fsExists fs fn = true)
    (hparse : loads (pyStrip (readFile fs fn)) = some (.arr items))
    (hne : items ≠ [])
    (_hobj : ∀ s ∈ items, ∃ o, s = Json.obj o) :
    ∃ db', save_from_file fs db fn =
      (.single items.length (items.countP candidateAccepted), db') := by
  have hrec := recoveredData_of_loads hparse
  have hpf : parse_result_file (readFile fs fn) = items := by
    rw [parse_result_file, hrec, Option.elim_some, shapeCandidates]
  refine ⟨(saveLoop db items).1, ?_⟩
  rw [save_from_file]
  rw [hex, if_pos rfl, processSingle, hpf,
    if_neg (by simp [List.isEmpty_iff, hne])]
  simp only []
  rw [saveLoop_count items db]

/-- C6 (witness): a file with two objects of which one has a resolvable
name reports two found, one saved. -/
theorem c6_report_amended_witness :
    ∃ db', save_from_file
        [("r.json".toList,
          "[\x7b\"name\": \"X\"\x7d, \x7b\"note\": \"anon\"\x7d]".toList)]
        emptyDB "r.json".toList =
      (.single 2 1, db') :=
  c6_report_amended _ emptyDB "r.json".toList
    [Json.obj [("name".toList, Json.str ['X'])],
     Json.obj [("note".toList, Json.str "anon".toList)]]
    rfl rfl (by simp)
    (by
      intro s hs
      rcases List.mem_cons.mp hs with rfl | hs2
      · exact ⟨_, rfl⟩
      · rcases List.mem_cons.mp hs2 with rfl | hs3
        · exact ⟨_, rfl⟩
        · cases hs3)

/-- C7 (counterexample): with a file literally named `all` in the
working directory, the fixed patterns match zero files and yet the
operation returns a single-file success report, not the NotFound the
claim demands, because the existence check runs first. -/
theorem c7_all_missing_counterexample :
    globFiles [("all".toList, "[\x7b\"name\": \"X\"\x7d]".toList)] = [] ∧
    (save_from_file [("all".toList, "[\x7b\"name\": \"X\"\x7d]".toList)]
        emptyDB "all".toList).1 = .single 1 1 ∧
    ApiResponse.single 1 1 ≠ .err 404 :=
  ⟨rfl, rfl, by simp⟩

/-- C7 (amended): when no file named `all` exists and the union of the
fixed patterns matches zero files, ingestion with the keyword `all`
fails with HTTP 404 (`No result files found`) and the store is
untouched — no partial report. -/
theorem c7_all_missing_404 (fs : FS) (db : DB)
    (h1 : fsExists fs "all".toList = false)
    (h2 : globFiles fs = []) :
    save_from_file fs db "all".toList = (.err 404, db) := by
  rw [save_from_file, h1]
  rw [if_neg (by simp), if_pos rfl, h2]
  rfl

/-- C7 (witness): an empty working directory yields the 404. -/
theorem c7_all_missing_404_witness :
    save_from_file [] emptyDB "all".toList = (.err 404, emptyDB) :=
  c7_all_missing_404 [] emptyDB rfl rfl

/-- C10: the existence check on the literal filename runs before the
`all` keyword is interpreted: when a file named `all` exists it is
parsed as a single ordinary source file, and no pattern expansion (and
hence no multi-file report) can occur. -/
theorem c10_existing_all_file_first (fs : FS) (db : DB)
    (h : fsExists fs "all".toList = true) :
    save_from_file fs db "all".toList = processSingle fs db "all".toList ∧
    ∀ nf ts pf, (save_from_file fs db "all".toList).1 ≠ .multi nf ts pf := by
  have he : save_from_file fs db "all".toList = processSingle fs db "all".toList := by
    rw [save_from_file, h, if_pos rfl]
  refine ⟨he, ?_⟩
  intro nf ts pf
  rw [he, processSingle]
  by_cases hc : (parse_result_file (readFile fs "all".toList)).isEmpty = true
  · rw [if_pos hc]
    simp
  · rw [if_neg hc]
    simp

/-- C5 (counterexample): a file of leading prose, one well-formed JSON
array and trailing prose is claimed to recover exactly that array; but
the trailing prose here contains a `]`, the recovery span runs from the
first `[` to that last `]`, its re-parse fails, and the file yields
zero records instead of the embedded array. -/
theorem c5_recovery_counterexample :
    parse_result_file "Result: [\"a\"] Done]".toList = [] ∧
      ([] : List Json) ≠ [Json.str ['a']] :=
  ⟨rfl, by simp⟩

/-- C5 (amended): recovery re-parses the span from the first `[` to the
last `]` of the stripped text; for a file of one leading non-JSON block
containing no `[`, one well-formed bracketed array, and one trailing
block containing no `]`, recovery extracts exactly that array (and when
the span fails to re-parse, the file yields zero records without
aborting the run). -/
theorem c5_recovery_amended (content pre inner post : Str) (xs : List Json)
    (hsplit : pyStrip content = pre ++ ('[' :: (inner ++ [']'])) ++ post)
    (hfail : loads (pre ++ ('[' :: (inner ++ [']'])) ++ post) = none)
    (hpre : '[' ∉ pre) (hpost : ']' ∉ post)
    (hmid : loads ('[' :: (inner ++ [']'])) = some (.arr xs)) :
    parse_result_file content = xs := by
  have hprefind : pre.findIdx? (fun x => x = '[') = none :=
    List.findIdx?_eq_none_iff.mpr fun x hx => by
      simp only [decide_eq_false_iff_not]
      intro he
      exact hpre (he ▸ hx)
  have hpostfind : post.reverse.findIdx? (fun x => x = ']') = none :=
    List.findIdx?_eq_none_iff.mpr fun x hx => by
      simp only [decide_eq_false_iff_not]
      intro he
      exact hpost (he ▸ List.mem_reverse.mp hx)
  have hfind : pyFind (pre ++ ('[' :: (inner ++ [']'])) ++ post) '[' =
      some pre.length := by
    rw [pyFind, List.append_assoc, List.findIdx?_append, hprefind]
    rw [show List.findIdx? (fun x => x = '[')
        ('[' :: (inner ++ [']']) ++ post) = some 0 by
      simp [List.findIdx?_cons]]
    simp
  have hrfind : pyRfind (pre ++ ('[' :: (inner ++ [']'])) ++ post) ']' =
      some (pre.length + (inner.length + 1)) := by
    rw [pyRfind, List.reverse_append, List.reverse_append,
      List.findIdx?_append, hpostfind]
    rw [show ('[' :: (inner ++ [']'])).reverse ++ pre.reverse =
      ']' :: (inner.reverse ++ '[' :: pre.reverse) by
        rw [List.reverse_cons, List.reverse_append]
        simp]
    rw [show List.findIdx? (fun x => x = ']')
        (']' :: (inner.reverse ++ '[' :: pre.reverse)) = some 0 by
      simp [List.findIdx?_cons]]
    simp only [Option.map_some', Option.none_or, Option.map_map]
    refine congrArg some ?_
    simp only [List.length_append, List.length_cons, List.length_reverse,
      List.length_singleton, List.length_nil, Function.comp]
    omega
  have hslice :
      (((pre ++ ('[' :: (inner ++ [']'])) ++ post).drop pre.length).take
        (pre.length + (inner.length + 1) + 1 - pre.length)) =
      '[' :: (inner ++ [']']) := by
    rw [List.append_assoc, List.drop_left]
    rw [show pre.length + (inner.length + 1) + 1 - pre.length =
      ('[' :: (inner ++ [']'])).length by
        simp only [List.length_cons, List.length_append, List.length_singleton,
          List.length_nil]
        omega]
    exact List.take_left _ _
  have hrec : recoveredData content = some (.arr xs) := by
    rw [recoveredData]
    rw [hsplit, hfail]
    rw [if_neg (by
      intro h0
      rw [List.isEmpty_iff] at h0
      rcases List.append_eq_nil.mp h0 with ⟨h1, -⟩
      rcases List.append_eq_nil.mp h1 with ⟨-, h2⟩
      cases h2)]
    rw [Option.elim_none, recoverSpan, hfind, Option.elim_some]
    rw [hrfind, Option.elim_some]
    rw [if_pos (by omega), hslice, hmid]
  rw [parse_result_file, hrec, Option.elim_some, shapeCandidates]

/-- C5 (witness): prose around a one-string array, with no stray
brackets, recovers exactly that array. -/
theorem c5_recovery_amended_witness :
    parse_result_file "Note: [\"a\"] end".toList = [Json.str ['a']] :=
  c5_recovery_amended "Note: [\"a\"] end".toList "Note: ".toList
    "\"a\"".toList " end".toList [Json.str ['a']]
    (by decide) rfl (by decide) (by decide) rfl

/-- Unfolding the read-back query. -/
theorem get_all_eq (db : DB) :
    get_all_startups_from_db db =
      match (sortDesc db.rows).mapM readRow with
      | some l => l
      | none => [] := rfl

/-- C2: persisting a candidate with a truthy company name succeeds, and
reading the store back yields (newest first) a record whose four
sequence fields are exactly the candidate's resolved ordered sequences;
an absent sequence field resolves to the empty sequence and therefore
reads back empty.  The store hypothesis `DBWF` covers every state the
program can produce. -/
theorem c2_roundtrip (db : DB) (d : RawRec) (hwf : DBWF db)
    (hcn : truthy (resolve_company_name d) = true)
    (f1 f2 f3 f4 : List Json)
    (h1 : resolve_founders d = .arr f1)
    (h2 : resolve_funding_rounds d = .arr f2)
    (h3 : resolve_key_partnerships d = .arr f3)
    (h4 : resolve_major_competitors d = .arr f4) :
    (save_startup_to_db d db).2 = true ∧
    ∃ rec tl,
      get_all_startups_from_db (save_startup_to_db d db).1 = rec :: tl ∧
      rec.founders = .arr f1 ∧ rec.funding_rounds = .arr f2 ∧
      rec.key_partnerships = .arr f3 ∧ rec.major_competitors = .arr f4 := by
  obtain ⟨row, hrows, hclock, hts, hf, hfr, hkp, hmc, hind, hyear, hcnq⟩ :=
    save_rows db hcn
  refine ⟨save_succeeds db hcn, ?_⟩
  have hmax : ∀ x ∈ db.rows, x.created_at < row.created_at := by
    intro x hx
    rw [hts]
    exact (hwf x hx).1
  obtain ⟨l, hl⟩ := mapM_readRow_isSome (sortDesc db.rows)
    (fun x hx => (hwf x (mem_sortDesc.mp hx)).2)
  have hready : readRow row = some
      { company_name := row.company_name, website_url := row.website_url,
        founding_year := row.founding_year, founders := .arr f1,
        business_model := row.business_model,
        industry_sector := row.industry_sector, funding_rounds := .arr f2,
        total_capital_raised := row.total_capital_raised,
        current_revenue_estimates := row.current_revenue_estimates,
        employee_count := row.employee_count,
        customer_user_base_size := row.customer_user_base_size,
        key_partnerships := .arr f3, major_competitors := .arr f4,
        recent_news_developments := row.recent_news_developments,
        created_at := row.created_at } := by
    rw [readRow, hf, h1, decodeSeq_dumpsV, hfr, h2, decodeSeq_dumpsV,
      hkp, h3, decodeSeq_dumpsV, hmc, h4, decodeSeq_dumpsV]
    rfl
  rw [get_all_eq, hrows, sortDesc_snoc_max db.rows row hmax,
    List.mapM_cons, hready, hl]
  exact ⟨_, l, rfl, rfl, rfl, rfl, rfl⟩

/-- C2 (witness): a concrete candidate with founders `["A", "B"]` and
the other sequence fields absent reads back in order, the absent fields
as empty sequences. -/
theorem c2_roundtrip_witness :
    (save_startup_to_db
        [("company_name".toList, Json.str "Acme".toList),
         ("founders".toList, Json.arr [Json.str ['A'], Json.str ['B']])]
        emptyDB).2 = true ∧
    ∃ rec tl,
      get_all_startups_from_db
          (save_startup_to_db
            [("company_name".toList, Json.str "Acme".toList),
             ("founders".toList, Json.arr [Json.str ['A'], Json.str ['B']])]
            emptyDB).1 = rec :: tl ∧
      rec.founders = .arr [Json.str ['A'], Json.str ['B']] ∧
      rec.funding_rounds = .arr [] ∧
      rec.key_partnerships = .arr [] ∧ rec.major_competitors = .arr [] :=
  c2_roundtrip emptyDB
    [("company_name".toList, Json.str "Acme".toList),
     ("founders".toList, Json.arr [Json.str ['A'], Json.str ['B']])]
    (fun r hr => absurd hr (List.not_mem_nil r)) rfl
    [Json.str ['A'], Json.str ['B']] [] [] [] rfl rfl rfl rfl

/-- C10 (witness): with a file named `all` present the endpoint takes
the single-file path. -/
theorem c10_existing_all_file_first_witness :
    save_from_file [("all".toList, "[]".toList)] emptyDB "all".toList =
        processSingle [("all".toList, "[]".toList)] emptyDB "all".toList ∧
      ∀ nf ts pf,
        (save_from_file [("all".toList, "[]".toList)] emptyDB "all".toList).1 ≠
          .multi nf ts pf :=
  c10_existing_all_file_first [("all".toList, "[]".toList)] emptyDB rfl

/-- The industry list comprehension over records whose sector column is
a string filters by the case-insensitive containment test. -/
theorem industryFilter_eq (ind : Str) (l : List Rec)
    (h : ∀ s ∈ l, ∃ t, s.industry_sector = Json.str t) :
    industryFilter ind l = some (l.filter (specIndustryMatch ind)) := by
  induction l with
  | nil => rfl
  | cons s rest ih =>
    obtain ⟨t, ht⟩ := h s (List.mem_cons_self s rest)
    have ihr := ih fun x hx => h x (List.mem_cons_of_mem s hx)
    by_cases hc : strContains (pyLower t) (pyLower ind) = true <;>
      simp [industryFilter, industryTest, ht, ihr, List.filter_cons,
        specIndustryMatch, hc]

/-- Reading rows back preserves the descending stamp order. -/
theorem mapM_readRow_pairwise {l : List Row} {l' : List Rec}
    (h : l.mapM readRow = some l')
    (hp : l.Pairwise fun a b => b.created_at ≤ a.created_at) :
    l'.Pairwise fun a b => b.created_at ≤ a.created_at := by
  induction l generalizing l' with
  | nil =>
    simp only [List.mapM_nil, Option.pure_def, Option.some.injEq] at h
    subst h
    exact List.Pairwise.nil
  | cons x xs ih =>
    rw [List.mapM_cons] at h
    rcases hx : readRow x with - | rx
    · rw [hx] at h
      simp at h
    · rw [hx] at h
      rcases hxs : xs.mapM readRow with - | ys
      · rw [hxs] at h
        simp at h
      · rw [hxs] at h
        simp at h
        subst h
        rw [List.pairwise_cons] at hp ⊢
        refine ⟨?_, ih hxs hp.2⟩
        intro b hb
        obtain ⟨rowb, hrowb, hread⟩ := mapM_readRow_mem hxs b hb
        rw [(readRow_fields hread).2.2, (readRow_fields hx).2.2]
        exact hp.1 rowb hrowb

/-- The read-back list is always newest first. -/
theorem get_all_pairwise (db : DB) :
    (get_all_startups_from_db db).Pairwise
      fun a b => b.created_at ≤ a.created_at := by
  rw [get_all_eq]
  rcases hm : (sortDesc db.rows).mapM readRow with - | l
  · exact List.Pairwise.nil
  · exact mapM_readRow_pairwise hm (pairwise_sortDesc db.rows)

/-- Evaluating the endpoint when both filters are truthy and the
industry comprehension does not raise. -/
theorem get_startups_eval (db : DB) (limit : Int) (ind : Str) (y : Int)
    (hind : ind.isEmpty = false) (hy : ¬ y = 0) (l : List Rec)
    (hf : industryFilter ind (get_all_startups_from_db db) = some l) :
    get_startups db limit (some ind) (some y) =
      .ok (pySliceTo (l.filter fun s => s.founding_year.eqInt y) limit) := by
  simp [get_startups, hind, hf, hy]
  rfl

/-- C8 (counterexample): the claim has the founding-year filter applied
whenever a year is supplied; but the code guards it with the truthiness
test `if founding_year:`, so the supplied year `0` is ignored and a
record founded in 2021 comes back instead of no record. -/
theorem c8_list_counterexample :
    ∃ s, get_startups
        (save_startup_to_db
          [("company_name".toList, Json.str ['A']),
           ("founding_year".toList, Json.num 2021)] emptyDB).1
        100 none (some 0) = .ok [s] ∧
      s.founding_year = Json.num 2021 ∧
      Json.eqInt (Json.num 2021) 0 = false :=
  ⟨_, rfl, rfl, rfl⟩

/-- C8 (amended): for a non-empty industry string, a non-zero supplied
year, a non-negative limit and a store whose read-back records all carry
string sectors, the endpoint answers exactly the read-back list filtered
by case-insensitive industry containment and exact founding year, then
truncated to the first `limit` entries; and any list it answers is
ordered newest first by `created_at`. -/
theorem c8_list_amended (db : DB) (limit : Int) (ind : Str) (y : Int)
    (hind : ind.isEmpty = false) (hy : y ≠ 0) (hlim : 0 ≤ limit)
    (hstr : ∀ s ∈ get_all_startups_from_db db,
      ∃ t, s.industry_sector = Json.str t) :
    get_startups db limit (some ind) (some y) =
      .ok (((get_all_startups_from_db db).filter
          (fun s => specIndustryMatch ind s && s.founding_year.eqInt y)).take
        limit.toNat) ∧
    ∀ out, get_startups db limit (some ind) (some y) = .ok out →
      out.Pairwise fun a b => b.created_at ≤ a.created_at := by
  have hf := industryFilter_eq ind _ hstr
  have heq := get_startups_eval db limit ind y hind hy _ hf
  have hff : ((get_all_startups_from_db db).filter
        (specIndustryMatch ind)).filter
      (fun s => s.founding_year.eqInt y) =
      (get_all_startups_from_db db).filter
        (fun s => specIndustryMatch ind s && s.founding_year.eqInt y) := by
    rw [List.filter_filter]
    exact List.filter_congr fun s hs => by rw [Bool.and_comm]
  refine ⟨by rw [heq, pySliceTo, if_pos hlim, hff], ?_⟩
  intro out hout
  rw [heq] at hout
  injection hout with hout
  subst hout
  rw [pySliceTo, if_pos hlim, hff]
  exact List.Pairwise.sublist (List.take_sublist _ _)
    (List.Pairwise.filter _ (get_all_pairwise db))

/-- C8 (witness): the filters `industry="fin"`, `founding_year=2021`,
`limit=100` on the fresh store answer the filtered (empty) list. -/
theorem c8_list_amended_witness :
    ("fin".toList.isEmpty = false) ∧ (2021 : Int) ≠ 0 ∧ (0 : Int) ≤ 100 ∧
    get_startups emptyDB 100 (some "fin".toList) (some 2021) =
      .ok (((get_all_startups_from_db emptyDB).filter
          (fun s => specIndustryMatch "fin".toList s &&
            s.founding_year.eqInt 2021)).take (100 : Int).toNat) :=
  ⟨rfl, by decide, by decide,
    (c8_list_amended emptyDB 100 "fin".toList 2021 rfl (by decide) (by decide)
      (fun s hs => absurd hs (List.not_mem_nil s))).1⟩

end StartupResearch
